import Mathlib

/-!
Verification development for the kest end-to-end Kubernetes testing engine.

The definitions below are shallow embeddings of the TypeScript sources:

* `Kest.Recorder`       — src/ts/recording/index.ts (`Recorder`)
* `Kest.Reverting`      — src/ts/reverting/index.ts (`createReverting`)
* `Kest.assertAbsence`  — src/unnamed/part_005 (`assertAbsence`)
* `Kest.retryUntil`     — src/ts/retry.ts (`retryUntil`)
* `Kest.scenarioTest`   — src/unnamed/part_015 (`makeScenarioTest`) together
                          with `createScenario().cleanup` from src/ts/scenario/index.ts
* `Kest.Duration`       — src/ts/workspace/index.ts (`Duration.toString`, `parseDuration`)
* `Kest.Parser`         — the event→report parser (`parseEvents`, `handleNonBDDEvent`,
                          `applyRegularActionEnd`, `isDiffLike`, `ensureScenario`, …)
                          embedded in src/ts/reporter/markdown/parser/cases/
                          action-outside-bdd-section.test.ts lines 203–589,
                          with `stripAnsi` from src/unnamed/part_031.

Strings are modelled as Lean `String`s; character-level operations
(line splitting, ANSI stripping, digit scanning) work on `List Char`
via `String.data`, which mirrors JavaScript's treatment of strings as
character sequences for the operations that occur in this code base.
JavaScript numbers are modelled as `Nat` (all arithmetic performed by the
embedded functions stays within the exactly-representable integer range
of IEEE doubles wherever a theorem below relies on it; the one place the
2^53 boundary matters — `parseDuration`'s `Number.isSafeInteger` guard —
is modelled explicitly).
-/

namespace Kest

/-! ## Character-level string helpers -/

/-- Numeric value of a decimal digit character (JS `charCode - 48`). -/
def digitVal (c : Char) : Nat := c.toNat - 48

/-- Decimal digit test, as in the regex character class `\d`. -/
def isDigitC (c : Char) : Bool := 48 ≤ c.toNat && c.toNat ≤ 57

/-- Character for a decimal digit value. -/
def digitChar (d : Nat) : Char := Char.ofNat (48 + d)

/-- Value of a most-significant-first digit string (JS `BigInt(str)` on a
digit-only string). -/
def valOfDigits (ds : List Char) : Nat :=
  ds.foldl (fun a c => a * 10 + digitVal c) 0

/-- Helper for decimal rendering: peel digits least-significant first.
The `fuel` argument only serves termination; `fuel = n` always suffices. -/
def toDecAux : Nat → Nat → List Char → List Char
  | 0, _, acc => acc
  | fuel + 1, n, acc =>
    if n = 0 then acc else toDecAux fuel (n / 10) (digitChar (n % 10) :: acc)

/-- Decimal rendering of a natural number, as JS string interpolation
`\x7b$n\x7d` / `String(n)` renders a non-negative integer. -/
def toDecChars (n : Nat) : List Char :=
  if n = 0 then ['0'] else toDecAux n n []

/-- Longest digit run at the front of a string together with the rest
(the behaviour of a greedy `\d+`/`\d*` at the current position). -/
def spanDigits (s : List Char) : List Char × List Char :=
  (s.takeWhile isDigitC, s.dropWhile isDigitC)

/-- Test whether `pre` is an initial segment of `s`
(JS `s.startsWith(pre)`). -/
def startsWithL : List Char → List Char → Bool
  | [], _ => true
  | _ :: _, [] => false
  | p :: ps, c :: cs => p == c && startsWithL ps cs

/-- Substring containment (JS `s.includes(needle)`). -/
def containsSub : List Char → List Char → Bool
  | needle, [] => startsWithL needle []
  | needle, c :: cs => startsWithL needle (c :: cs) || containsSub needle cs

/-- Split on the regex `/\r?\n/`: separators are `"\r\n"` or `"\n"`;
a carriage return not followed by a newline stays in its line. -/
def splitLinesAux : List Char → List Char → List (List Char)
  | [], acc => [acc.reverse]
  | '\r' :: '\n' :: rest, acc => acc.reverse :: splitLinesAux rest []
  | '\n' :: rest, acc => acc.reverse :: splitLinesAux rest []
  | c :: rest, acc => splitLinesAux rest (c :: acc)

/-- Lines of a string, per `message.split(/\r?\n/)`. -/
def splitLines (s : List Char) : List (List Char) := splitLinesAux s []

/-- Consume `[0-9;]*` followed by `m` and return the remainder, if the
input begins with such a sequence (the tail of the ANSI escape regex
`/\u001b\[[0-9;]*m/` after `ESC [`). -/
def consumeAnsiCode : List Char → Option (List Char)
  | [] => none
  | c :: rest =>
    if c = 'm' then some rest
    else if isDigitC c || c = ';' then consumeAnsiCode rest
    else none

/-- Single left-to-right pass of `input.replace(/\u001b\[[0-9;]*m/g, "")`
from src/unnamed/part_031 (`stripAnsi`, regex branch). The `fuel`
argument only serves termination; `fuel = input.length` always suffices
since each step consumes at least one character. -/
def stripAnsiAux : Nat → List Char → List Char
  | 0, s => s
  | fuel + 1, s =>
    match s with
    | [] => []
    | c :: rest =>
      if c = '\x1b' then
        match rest with
        | '[' :: t =>
          match consumeAnsiCode t with
          | some t' => stripAnsiAux fuel t'
          | none => c :: stripAnsiAux fuel rest
        | _ => c :: stripAnsiAux fuel rest
      else c :: stripAnsiAux fuel rest

/-- ANSI escape stripping (src/unnamed/part_031 `stripAnsi`). -/
def stripAnsi (s : List Char) : List Char := stripAnsiAux s.length s

/-! ## Error values

JavaScript `Error` objects as they are observed by this code base:
a `name`, a `message`, an optional `stack` and an optional `cause`
(recursively of the same shape). This is the `error` summary shape
carried by `ActionEnd` / `RetryEnd` events (src/ts/recording/index.ts). -/

inductive JsError where
  | mk (name : Option String) (message : String) (stack : Option String)
      (cause : Option JsError)

/-- Message of an error. -/
def JsError.message : JsError → String
  | .mk _ m _ _ => m

/-- Name of an error. -/
def JsError.name : JsError → Option String
  | .mk n _ _ _ => n

/-- Stack of an error. -/
def JsError.stack : JsError → Option String
  | .mk _ _ s _ => s

/-- Cause of an error. -/
def JsError.cause : JsError → Option JsError
  | .mk _ _ _ c => c

/-! ## Events (src/ts/recording/index.ts)

The closed set of event kinds recorded by the engine. Payloads follow the
`Event` union type; note that the source spells the BDD "but" kind
`BDBut`. A `RetryEnd` payload carries `attempts`, `success` and, on the
timeout branch, an `error`. -/

inductive Event where
  | scenarioStart (name : String)
  | scenarioEnd
  | actionStart (description : String)
  | actionEnd (ok : Bool) (error : Option JsError)
  | commandRun (cmd : String) (args : List String) (stdin : Option String)
      (stdinLanguage : Option String)
  | commandResult (exitCode : Int) (stdout stderr : String)
      (stdoutLanguage stderrLanguage : Option String)
  | retryStart
  | retryAttempt (attempt : Nat)
  | retryEnd (attempts : Nat) (success : Bool) (error : Option JsError)
  | revertingsStart
  | revertingsEnd
  | revertingsSkipped
  | bddGiven (description : String)
  | bddWhen (description : String)
  | bddThen (description : String)
  | bddAnd (description : String)
  | bdBut (description : String)

/-! ## Recorder (src/ts/recording/index.ts)

The `Recorder` class owns a single mutable array `events`. `record`
pushes onto that array; `getEvents` returns the array itself — the very
same object, not a copy. We model the array's contents as a `List Event`.
Because `getEvents` returns the internal array by reference, the view a
caller obtained earlier is that same cell: its contents at any later
point in time are `Recorder.getEvents` of the recorder's state at that
point. -/

namespace Recorder

/-- Append one event (`record(kind, payload)`, an `Array.push`). -/
def record (events : List Event) (e : Event) : List Event := events ++ [e]

/-- Return the event log (`getEvents()` returns `this.events`, the
recorder's own array, without copying). -/
def getEvents (events : List Event) : List Event := events

end Recorder

/-! ## Reverting stack (src/ts/reverting/index.ts `createReverting`) -/

/-- Observable steps of a `revert()` call, in order: the
`RevertingsStart` record, each callback invocation, and the
`RevertingsEnd` record. -/
inductive RevStep (α : Type) where
  | started
  | invoked (cb : α)
  | ended
deriving DecidableEq

/-- Result of draining the reverting stack. -/
structure RevResult (α ε : Type) where
  /-- Ordered trace: recorder events and callback invocations. -/
  trace : List (RevStep α)
  /-- Contents of `revertFns` after the call, in add order. -/
  stack : List α
  /-- Error re-raised by `revert()`, if any. -/
  thrown : Option ε
deriving DecidableEq

namespace Reverting

/-- Register a callback (`add` pushes onto `revertFns`). -/
def add (stack : List α) (cb : α) : List α := stack ++ [cb]

/-- Record `RevertingsSkipped` and invoke nothing (`skip()`). -/
def skip : List Event := [Event.revertingsSkipped]

/-- Pop-and-run loop of `revert()`, acting on the stack in reversed
(top-first) order: `revertFns.pop()` takes the head of the reversal.
On a callback failure the `finally` block pushes the failed callback
back, so the remaining stack is returned in add order. -/
def revertPops (run : α → Except ε Unit) :
    List α → List (RevStep α) × List α × Option ε
  | [] => ([], [], none)
  | fn :: rest =>
    match run fn with
    | .ok _ =>
      let (tr, st, res) := revertPops run rest
      (.invoked fn :: tr, st, res)
    | .error e => ([.invoked fn], rest.reverse ++ [fn], some e)

/-- Drain the stack (`revert()`): record `RevertingsStart`, pop and await
callbacks from the top, and in the `finally` block push back a failed
callback and record `RevertingsEnd` before re-raising. -/
def revert (run : α → Except ε Unit) (stack : List α) : RevResult α ε :=
  let (tr, st, res) := revertPops run stack.reverse
  ⟨.started :: tr ++ [.ended], st, res⟩

end Reverting

/-! ## AssertAbsence (src/unnamed/part_005 `assertAbsence`) -/

/-- Test from `isNotFoundError`: the error's message contains the literal
substring `(NotFound)`. (The `instanceof Error` part of the source test
always holds here because thrown values are modelled as errors.) -/
def isNotFoundError (e : JsError) : Bool :=
  containsSub "(NotFound)".data e.message.data

/-- Outcome of the `assertAbsence` query given the outcome of the
underlying `kubectl.get` call: a successful `get` makes the action fail
with an "Expected … to be absent, but it exists" error, a `(NotFound)`
failure makes it succeed, and any other error is re-raised unchanged. -/
def assertAbsence (kind name : String) (getResult : Except JsError String) :
    Except JsError Unit :=
  match getResult with
  | .error e => if isNotFoundError e then .ok () else .error e
  | .ok _ =>
    .error (JsError.mk none
      ("Expected " ++ kind ++ " \"" ++ name ++ "\" to be absent, but it exists")
      none none)

/-! ## Retry engine (src/ts/retry.ts `retryUntil`)

Real time is abstracted by a clock oracle: `clock i` is the value
returned by the `i`-th call to `Date.now()` during the run (call 0 is
`startedAtMs`). Each loop iteration performs three `Date.now()` calls:
the `while` condition, `nowMs`, and the post-sleep deadline check.
`Bun.sleep` itself has no direct effect in the model — whatever time it
lets pass is reflected by the oracle's later values. The thunk's
behaviour is a function of its invocation index (`fn k` is the outcome of
the `k`-th invocation, 0-based). The `fuel` argument only serves
termination of the model; a run that would loop forever yields `none`. -/

/-- Retry events, the projection of the recorder traffic issued by
`retryUntil` itself. -/
inductive REvent (ε : Type) where
  | start
  | attempt (n : Nat)
  | ended (attempts : Nat) (success : Bool) (error : Option ε)
deriving DecidableEq

/-- Outcome of a completed `retryUntil` run. -/
structure RetryRun (ε α : Type) where
  /-- Retry events recorded, in order. -/
  events : List (REvent ε)
  /-- Number of invocations of the thunk. -/
  calls : Nat
  /-- Value returned, or error thrown, by `retryUntil`. -/
  result : Except ε α

/-- Code after the polling loop (src/ts/retry.ts lines 95–106): when at
least one retry was attempted, record the timeout `RetryEnd`; then throw
the last error. (The `lastError ?? new Error("Timed out after …")`
fallback only fires when the thrown value itself was `undefined`, which
error values in this model cannot be, so the last error is always
present here.) -/
def retryAfterLoop (events : List (REvent ε)) (calls retries : Nat)
    (lastErr : ε) : RetryRun ε α :=
  let events :=
    if 0 < retries then
      events ++ [.ended retries false (some lastErr)]
    else events
  ⟨events, calls, .error lastErr⟩

/-- Polling loop of `retryUntil` (src/ts/retry.ts lines 67–93).
`i` is the index of the next `Date.now()` call. -/
def retryLoop (fn : Nat → Except ε α) (clock : Nat → Nat)
    (deadline intervalMs : Nat) :
    Nat → Nat → Nat → Nat → ε → List (REvent ε) → Option (RetryRun ε α)
  | 0, _, _, _, _, _ => none
  | fuel + 1, i, calls, retries, lastErr, events =>
    if clock i < deadline then
      -- `nowMs`, `remainingMs`, `sleepMs`: Math.max(0, …) is Nat subtraction.
      let nowMs := clock (i + 1)
      let remainingMs := deadline - nowMs
      let _sleepMs := min intervalMs remainingMs
      -- `if (sleepMs > 0) await Bun.sleep(sleepMs)`: time passes via the oracle.
      if deadline ≤ clock (i + 2) then
        some (retryAfterLoop events calls retries lastErr)
      else
        let retries := retries + 1
        let events := events ++ [.attempt retries]
        match fn calls with
        | .ok v => some ⟨events ++ [.ended retries true none], calls + 1, .ok v⟩
        | .error e =>
          retryLoop fn clock deadline intervalMs fuel (i + 3) (calls + 1)
            retries e events
    else
      some (retryAfterLoop events calls retries lastErr)

/-- Retry a fallible thunk until it succeeds or the time budget runs out
(src/ts/retry.ts `retryUntil`, with `timeout` and `interval` already
converted to milliseconds). The first call is made unconditionally and is
not a retry; `RetryStart` is recorded when it fails. -/
def retryUntil (fn : Nat → Except ε α) (clock : Nat → Nat)
    (timeoutMs intervalMs fuel : Nat) : Option (RetryRun ε α) :=
  let deadline := clock 0 + timeoutMs
  match fn 0 with
  | .ok v => some ⟨[], 1, .ok v⟩
  | .error e0 =>
    retryLoop fn clock deadline intervalMs fuel 1 1 0 e0 [.start]

/-! ## Scenario test wrapper (src/unnamed/part_015 `makeScenarioTest`)

The `testFn` built by `makeScenarioTest` records `ScenarioStart`, runs
the user callback (capturing its error, if any), then always runs
`await scenario.cleanup()` — which is `reverting.revert()`
(src/ts/scenario/index.ts) — records `ScenarioEnd`, and finally rethrows
the captured error. No environment flag is consulted anywhere on this
path: `part_015` reads only `KEST_SHOW_REPORT` and `KEST_SHOW_EVENTS`,
which affect reporting output, not cleanup. The `preserveOnFailure`
parameter below models `KEST_PRESERVE_ON_FAILURE=1`; it is deliberately
unused because the source never reads that variable. -/

/-- Outcome of one scenario test run, abstracting the user body by the
revert callbacks it registered and the error it raised (if any). -/
structure ScenarioRun (α ε : Type) where
  /-- Recorder events contributed by the wrapper and the reverting stack
  (events recorded by the body itself and by individual revert wrappers
  are outside this model). -/
  events : List Event
  /-- Revert callbacks invoked, in invocation order. -/
  invoked : List α
  /-- Remaining reverting stack. -/
  stack : List α
  /-- Error propagated out of the test function, if any. -/
  thrown : Option ε

/-- Recorder events of a reverting trace (invocations themselves record
nothing at this level). -/
def revTraceEvents : List (RevStep α) → List Event
  | [] => []
  | .started :: rest => Event.revertingsStart :: revTraceEvents rest
  | .ended :: rest => Event.revertingsEnd :: revTraceEvents rest
  | .invoked _ :: rest => revTraceEvents rest

/-- Callbacks invoked along a reverting trace. -/
def revTraceInvoked : List (RevStep α) → List α
  | [] => []
  | .invoked cb :: rest => cb :: revTraceInvoked rest
  | _ :: rest => revTraceInvoked rest

/-- One run of the test function built by `makeScenarioTest`:
`ScenarioStart`, body (summarised by `stack`/`bodyErr`), unconditional
`scenario.cleanup()` = `reverting.revert()`, then `ScenarioEnd` — which
is only reached when `cleanup()` did not throw — and rethrow. -/
def scenarioTestRun (_preserveOnFailure : Bool) (name : String)
    (stack : List α) (run : α → Except ε Unit) (bodyErr : Option ε) :
    ScenarioRun α ε :=
  let r := Reverting.revert run stack
  let events := Event.scenarioStart name :: revTraceEvents r.trace
  match r.thrown with
  | some e => ⟨events, revTraceInvoked r.trace, r.stack, some e⟩
  | none => ⟨events ++ [Event.scenarioEnd], revTraceInvoked r.trace, r.stack, bodyErr⟩

/-! ## Duration (src/ts/workspace/index.ts)

`Duration` wraps a non-negative integer count of milliseconds, modelled
as a `Nat`. For every value a theorem below touches, the JavaScript
`number` arithmetic in `toString` (floor divisions by 3600000/60000/1000
and the matching subtractions) is exact, so `Nat` arithmetic is a
faithful model. `parseDuration` accumulates a `BigInt` (arbitrary
precision, hence exactly `Nat`) and finally rejects totals that are not
safe integers (`Number.isSafeInteger`, i.e. above `2^53 - 1`). -/

/-- Largest integer `n` with `Number.isSafeInteger(n)`:
`Number.MAX_SAFE_INTEGER = 2^53 - 1`. -/
def maxSafeInteger : Nat := 9007199254740991

/-- Pad a digit string to (at least) three characters with leading zeros
(JS `str.padStart(3, "0")`). -/
def pad3 (ds : List Char) : List Char :=
  List.replicate (3 - ds.length) '0' ++ ds

/-- Remove trailing `'0'` characters (JS `str.replace(/0+$/, "")`). -/
def stripTrailingZeros (ds : List Char) : List Char :=
  (ds.reverse.dropWhile (fun c => c = '0')).reverse

/-- Fraction digits rendered for a sub-second remainder:
`String(remMs).padStart(3, "0").replace(/0+$/, "")`. -/
def fracChars (remMs : Nat) : List Char :=
  stripTrailingZeros (pad3 (toDecChars remMs))

/-- Go-style compound rendering of a millisecond count
(src/ts/workspace/index.ts `Duration.toString`). -/
def durationToString (ms : Nat) : List Char :=
  if ms = 0 then ['0']
  else if ms < 1000 then toDecChars ms ++ ['m', 's']
  else
    let hours := ms / 3600000
    let rem1 := ms - hours * 3600000
    let minutes := rem1 / 60000
    let rem2 := rem1 - minutes * 60000
    let seconds := rem2 / 1000
    let remMs := rem2 - seconds * 1000
    let out :=
      (if 0 < hours then toDecChars hours ++ ['h'] else []) ++
      (if 0 < minutes then toDecChars minutes ++ ['m'] else [])
    if 0 < seconds ∨ 0 < remMs ∨ out = [] then
      out ++
        (if remMs = 0 then toDecChars seconds ++ ['s']
         else toDecChars seconds ++ '.' :: fracChars remMs ++ ['s'])
    else out

/-- Ordered alternation `ms|s|m|h` of the duration token regex, returning
the unit's millisecond factor (`unitToMilliseconds`) and the rest: `ms`
is tried first, so a leading `m` followed by `s` is the millisecond
unit, otherwise it is the minute unit. -/
def parseUnit : List Char → Option (Nat × List Char)
  | [] => none
  | c1 :: rest1 =>
    if c1 = 'm' then
      match rest1 with
      | c2 :: rest2 => if c2 = 's' then some (1, rest2) else some (60000, rest1)
      | [] => some (60000, rest1)
    else if c1 = 's' then some (1000, rest1)
    else if c1 = 'h' then some (3600000, rest1)
    else none

/-- Match one sticky-regex token `(\d+(?:\.\d+)?)(ms|s|m|h)` at the front
of the input and convert it to milliseconds
(`parseDecimalToMilliseconds`): integer part times the unit factor plus
the truncated fractional contribution `frac * unitMs / 10 ^ fracLen`. -/
def parseOneToken (s : List Char) : Option (Nat × List Char) :=
  let (ds, r1) := spanDigits s
  if ds.isEmpty then none
  else
    let iv := valOfDigits ds
    match r1 with
    | [] => none
    | c :: t =>
      if c = '.' then
        let (fs, r2) := spanDigits t
        if fs.isEmpty then
          -- The optional fraction `(\.\d+)?` cannot match; the unit
          -- would then have to match at the '.', which it cannot either.
          match parseUnit r1 with
          | some (u, rest) => some (iv * u, rest)
          | none => none
        else
          match parseUnit r2 with
          | some (u, rest) =>
            some (iv * u + valOfDigits fs * u / 10 ^ fs.length, rest)
          | none => none
      else
        match parseUnit r1 with
        | some (u, rest) => some (iv * u, rest)
        | none => none

/-- Token loop of `parseDuration`: repeatedly match tokens from the
current position, summing their millisecond values; when no further token
matches, the whole input must have been consumed. The `fuel` argument
only serves termination; `fuel = s.length + 1` always suffices since
every token consumes at least one character. -/
def parseTokens : Nat → List Char → Nat → Option Nat
  | 0, _, _ => none
  | fuel + 1, s, acc =>
    match parseOneToken s with
    | none => if s.isEmpty then some acc else none
    | some (v, rest) => parseTokens fuel rest (acc + v)

/-- White-space test backing JS `String.prototype.trim` (the Unicode
White_Space code points plus the BOM). -/
def isJsWhitespace (c : Char) : Bool :=
  c.toNat = 0x20 || c.toNat = 0x09 || c.toNat = 0x0a || c.toNat = 0x0d ||
  c.toNat = 0x0b || c.toNat = 0x0c || c.toNat = 0xa0 || c.toNat = 0x1680 ||
  (0x2000 ≤ c.toNat && c.toNat ≤ 0x200a) || c.toNat = 0x2028 ||
  c.toNat = 0x2029 || c.toNat = 0x202f || c.toNat = 0x205f ||
  c.toNat = 0x3000 || c.toNat = 0xfeff

/-- Test for `input.trim() !== input`: some edge character is
white space. -/
def hasEdgeWhitespace (s : List Char) : Bool :=
  match s with
  | [] => false
  | c :: _ =>
    isJsWhitespace c ||
      (match s.getLast? with
       | some d => isJsWhitespace d
       | none => false)

/-- Strict Go-like duration parsing to integer milliseconds
(src/ts/workspace/index.ts `parseDuration`): non-empty, no surrounding
white space, no sign, the special `"0"`, then the token loop, and finally
the `Number.isSafeInteger` guard before constructing the `Duration`.
Returns `none` where the source throws `invalid duration`. -/
def parseDuration (s : List Char) : Option Nat :=
  if s.isEmpty then none
  else if hasEdgeWhitespace s then none
  else if s.head? = some '-' ∨ s.head? = some '+' then none
  else if s = ['0'] then some 0
  else
    match parseTokens (s.length + 1) s 0 with
    | none => none
    | some total => if total ≤ maxSafeInteger then some total else none

/-! ## Report model (src/ts/reporter/markdown/model.ts) -/

/-- Overview / cleanup status values. -/
inductive Status where
  | pending
  | success
  | failure
deriving DecidableEq

/-- Text with an optional language tag (`Text` in model.ts). -/
structure RText where
  text : String
  language : Option String
deriving DecidableEq

/-- Error of a report action (`Error` in model.ts). -/
structure RError where
  message : RText
  stack : Option String
deriving DecidableEq

/-- Command of a report action (`Command` in model.ts). -/
structure RCommand where
  cmd : String
  args : List String
  stdin : Option RText
  stdout : Option RText
  stderr : Option RText
deriving DecidableEq

/-- Action of the report (`Action` in model.ts). -/
structure RAction where
  name : String
  attempts : Option Nat
  commands : List RCommand
  error : Option RError
deriving DecidableEq

/-- BDD section of the report (`BDDSection` in model.ts); the keyword is
one of "given" | "when" | "then" | "and" | "but". -/
structure RBDDSection where
  keyword : String
  description : String
  actions : List RAction
deriving DecidableEq

/-- Entry of a scenario's `details` array: a tagged BDD section or a
tagged standalone action. -/
inductive RDetail where
  | bddSection (s : RBDDSection)
  | action (a : RAction)
deriving DecidableEq

/-- Overview row (`OverviewItem` in model.ts). -/
structure ROverviewItem where
  name : String
  status : Status
deriving DecidableEq

/-- Command of a cleanup row (`CleanupCommand` in model.ts). -/
structure RCleanupCommand where
  cmd : String
  args : List String
  output : String
deriving DecidableEq

/-- Cleanup row (`CleanupItem` in model.ts). -/
structure RCleanupItem where
  action : String
  resource : Option String
  status : Status
  command : RCleanupCommand
deriving DecidableEq

/-- Scenario of the report. The optional `cleanupSkipped?: boolean` flag
is modelled as a `Bool` that is `false` while the source field is unset
(the parser only ever sets it to `true`). -/
structure RScenario where
  name : String
  overview : List ROverviewItem
  details : List RDetail
  cleanup : List RCleanupItem
  cleanupSkipped : Bool
deriving DecidableEq

/-- Whole report. -/
structure Report where
  scenarios : List RScenario
deriving DecidableEq

/-! ## Event→report parser

Embedded from the parser implementation carried in
src/ts/reporter/markdown/parser/cases/action-outside-bdd-section.test.ts
(lines 203–589: `parseEvents`, `handleNonBDDEvent`, `handleActionStart`,
`applyRegularActionEnd`, `handleCommandRun`, `handleCommandResult`,
`handleScenarioStart`, `handleActionEnd`, `handleCleanupActionEnd`,
`handleRetryAttempt`, `handleRetryEnd`, `handleBDDEvent`,
`createCommandFromRun`, `ensureScenario`, `clearScenarioProgressState`,
`clearCurrentActionState`, `bddFromEvent`, `isDiffLike`).

The source threads object references through `ParseState`
(`currentScenario`, `currentBDDSection`, `currentAction`,
`currentCleanup` alias objects stored inside `report`). The embedding
replaces each alias by its address in the report:

* `currentScenario`, whenever it is set, is the scenario most recently
  pushed onto `report.scenarios` (every assignment in the source sets it
  to a just-pushed or last element, and `report.scenarios` only grows),
  so it is modelled by a Boolean `hasCurrentScenario` designating the
  last scenario;
* `currentBDDSection` is modelled by the scenario/details indices of the
  pushed section (its `actions` array is shared between the alias and
  the details entry, so pushes through the alias update that entry);
* `currentAction` is modelled by an `ActionPath` (scenario/details and,
  inside a section, action indices), valid forever because all these
  arrays only grow;
* `currentCleanup` by scenario/cleanup indices.

All lookups through these paths succeed in every state reachable by the
parser; the `none` fallbacks mirror nothing in the source and merely
keep the model total. -/

/-- Address of the action aliased by `state.currentAction`. -/
inductive ActionPath where
  | top (scen det : Nat)
  | inSection (scen det act : Nat)
deriving DecidableEq

/-- Parser state (`ParseState` in the source, with aliases replaced by
addresses as described above). -/
structure ParseState where
  report : Report
  hasCurrentScenario : Bool
  currentBDD : Option (Nat × Nat)
  inCleanup : Bool
  currentAction : Option ActionPath
  currentOverviewIndex : Option Nat
  currentCleanup : Option (Nat × Nat)
deriving DecidableEq

/-- Update the element at an index, when present. -/
def updAt (f : α → α) : Nat → List α → List α
  | _, [] => []
  | 0, x :: xs => f x :: xs
  | i + 1, x :: xs => x :: updAt f i xs

/-- Element lookup used by the embedding. -/
def getAt (l : List α) (i : Nat) : Option α := l[i]?

/-- Update one scenario of the report. -/
def updScenario (r : Report) (i : Nat) (f : RScenario → RScenario) : Report :=
  ⟨updAt f i r.scenarios⟩

/-- Look up the action a path points to. -/
def getActionAt (r : Report) : ActionPath → Option RAction
  | .top s d =>
    match (getAt r.scenarios s).bind (fun sc => getAt sc.details d) with
    | some (.action a) => some a
    | _ => none
  | .inSection s d a =>
    match (getAt r.scenarios s).bind (fun sc => getAt sc.details d) with
    | some (.bddSection sec) => getAt sec.actions a
    | _ => none

/-- Update the action a path points to. -/
def updActionAt (r : Report) (p : ActionPath) (f : RAction → RAction) : Report :=
  match p with
  | .top s d =>
    updScenario r s fun sc =>
      { sc with
        details := updAt
          (fun det =>
            match det with
            | .action a => .action (f a)
            | other => other) d sc.details }
  | .inSection s d a =>
    updScenario r s fun sc =>
      { sc with
        details := updAt
          (fun det =>
            match det with
            | .bddSection sec =>
              .bddSection { sec with actions := updAt f a sec.actions }
            | other => other) d sc.details }

/-- Fresh implicit scenario created by `ensureScenario`. -/
def freshScenario : RScenario :=
  ⟨"Scenario", [], [], [], false⟩

/-- Return the current scenario, creating and pushing an implicit
`"Scenario"` when none is current (`ensureScenario`). Yields the updated
report and the index of that scenario; the caller decides whether the
scenario becomes current (`ensureScenario` itself never assigns
`state.currentScenario`). -/
def ensureScenario (hasCurrent : Bool) (r : Report) : Report × Nat :=
  if hasCurrent then (r, r.scenarios.length - 1)
  else (⟨r.scenarios ++ [freshScenario]⟩, r.scenarios.length)

/-- Classification rule of `isDiffLike` for a `+` line: starts with `+`
but is not a unified-diff `+++` header. -/
def plusLine (l : List Char) : Bool :=
  startsWithL ['+'] l && !startsWithL ['+', '+', '+'] l

/-- Classification rule of `isDiffLike` for a `-` line: starts with `-`
but is not a unified-diff `---` header. -/
def minusLine (l : List Char) : Bool :=
  startsWithL ['-'] l && !startsWithL ['-', '-', '-'] l

/-- Loop of `isDiffLike`: fold over the lines, remembering whether a
plus line and a minus line have been seen, returning `true` as soon as
both have. -/
def isDiffLikeGo : List (List Char) → Bool → Bool → Bool
  | [], _, _ => false
  | l :: rest, sawPlus, sawMinus =>
    let sawPlus := sawPlus || plusLine l
    let sawMinus := sawMinus || minusLine l
    if sawPlus && sawMinus then true else isDiffLikeGo rest sawPlus sawMinus

/-- Diff-likeness heuristic (`isDiffLike` of the parser source): the
message, split at `/\r?\n/`, contains both a plus line and a minus
line. -/
def isDiffLike (s : List Char) : Bool :=
  isDiffLikeGo (splitLines s) false false

/-- Language assigned to a reported error message
(`applyRegularActionEnd`): `"diff"` when the ANSI-stripped message is
diff-like, `"text"` otherwise. -/
def errorLanguage (message : String) : String :=
  if isDiffLike (stripAnsi message.data) then "diff" else "text"

/-- Handle `ScenarioStart`: push a new scenario, make it current, and
clear all per-scenario progress state. -/
def handleScenarioStart (st : ParseState) (name : String) : ParseState :=
  { report := ⟨st.report.scenarios ++ [⟨name, [], [], [], false⟩]⟩
    hasCurrentScenario := true
    currentBDD := none
    inCleanup := false
    currentAction := none
    currentOverviewIndex := none
    currentCleanup := none }

/-- Handle `ActionStart` (`handleActionStart`): in cleanup mode append a
pending-success cleanup item with an empty command; otherwise create a
pending action, append its overview row, and attach it to the current
BDD section or directly to the scenario details. -/
def handleActionStart (st : ParseState) (desc : String) : ParseState :=
  let (r0, idx) := ensureScenario st.hasCurrentScenario st.report
  if st.inCleanup then
    match getAt r0.scenarios idx with
    | none => st
    | some sc =>
      let item : RCleanupItem := ⟨desc, none, .success, ⟨"", [], ""⟩⟩
      { st with
        report := updScenario r0 idx fun s => { s with cleanup := s.cleanup ++ [item] }
        currentCleanup := some (idx, sc.cleanup.length)
        currentAction := none
        currentOverviewIndex := none }
  else
    match getAt r0.scenarios idx with
    | none => st
    | some sc =>
      let action : RAction := ⟨desc, none, [], none⟩
      let ovIdx := sc.overview.length
      let r1 := updScenario r0 idx fun s =>
        { s with overview := s.overview ++ [⟨desc, .pending⟩] }
      match st.currentBDD with
      | some (bs, bd) =>
        match (getAt r1.scenarios bs).bind (fun s => getAt s.details bd) with
        | some (.bddSection sec) =>
          let r2 := updScenario r1 bs fun s =>
            { s with
              details := updAt
                (fun det =>
                  match det with
                  | .bddSection sec => .bddSection { sec with actions := sec.actions ++ [action] }
                  | other => other) bd s.details }
          { st with
            report := r2
            currentAction := some (.inSection bs bd sec.actions.length)
            currentOverviewIndex := some ovIdx }
        | _ =>
          { st with
            report := r1
            currentAction := none
            currentOverviewIndex := some ovIdx }
      | none =>
        let r2 := updScenario r1 idx fun s =>
          { s with details := s.details ++ [.action action] }
        { st with
          report := r2
          currentAction := some (.top idx sc.details.length)
          currentOverviewIndex := some ovIdx }

/-- Handle a non-cleanup `ActionEnd` (`applyRegularActionEnd`): bail out
when no scenario or no action is current; otherwise set the overview row
status of the *current* scenario, store the error (message classified
via `errorLanguage`, stack passed through) on a failure that carries
one, and clear the current action and overview index. -/
def applyRegularActionEnd (st : ParseState) (ok : Bool) (err : Option JsError) :
    ParseState :=
  if !st.hasCurrentScenario then st
  else
    match st.currentAction with
    | none => st
    | some path =>
      let r1 :=
        match st.currentOverviewIndex with
        | some i =>
          updScenario st.report (st.report.scenarios.length - 1) fun sc =>
            { sc with
              overview := updAt
                (fun o => { o with status := if ok then .success else .failure })
                i sc.overview }
        | none => st.report
      let r2 :=
        if !ok then
          match err with
          | some e =>
            updActionAt r1 path fun a =>
              { a with
                error := some ⟨⟨e.message, some (errorLanguage e.message)⟩, e.stack⟩ }
          | none => r1
        else r1
      { st with report := r2, currentAction := none, currentOverviewIndex := none }

/-- Handle an `ActionEnd` during cleanup (`handleCleanupActionEnd`
when it returns `true`): set the current cleanup item's status and
forget it. -/
def handleCleanupActionEnd (st : ParseState) (ok : Bool) : ParseState :=
  let st1 :=
    match st.currentCleanup with
    | some (si, ci) =>
      { st with
        report := updScenario st.report si fun sc =>
          { sc with
            cleanup := updAt
              (fun item => { item with status := if ok then .success else .failure })
              ci sc.cleanup } }
    | none => st
  { st1 with currentCleanup := none }

/-- Handle `ActionEnd` (`handleActionEnd`). -/
def handleActionEnd (st : ParseState) (ok : Bool) (err : Option JsError) :
    ParseState :=
  if st.inCleanup then handleCleanupActionEnd st ok
  else applyRegularActionEnd st ok err

/-- Command created from a `CommandRun` event
(`createCommandFromRun`). -/
def createCommandFromRun (cmd : String) (args : List String)
    (stdin : Option String) (stdinLanguage : Option String) : RCommand :=
  ⟨cmd, args, stdin.map (fun s => ⟨s, stdinLanguage⟩), none, none⟩

/-- Handle `CommandRun` (`handleCommandRun`): in cleanup, overwrite the
current cleanup item's command; otherwise append a command to the
current action. Without a current item/action, do nothing. -/
def handleCommandRun (st : ParseState) (cmd : String) (args : List String)
    (stdin : Option String) (stdinLanguage : Option String) : ParseState :=
  if st.inCleanup then
    match st.currentCleanup with
    | some (si, ci) =>
      { st with
        report := updScenario st.report si fun sc =>
          { sc with
            cleanup := updAt (fun item => { item with command := ⟨cmd, args, ""⟩ })
              ci sc.cleanup } }
    | none => st
  else
    match st.currentAction with
    | none => st
    | some p =>
      { st with
        report := updActionAt st.report p fun a =>
          { a with commands := a.commands ++ [createCommandFromRun cmd args stdin stdinLanguage] } }

/-- Handle `CommandResult` (`handleCommandResult`): in cleanup, store the
output (stdout if non-empty, else stderr) on the current cleanup item;
otherwise fill stdout/stderr of the current action's last command, doing
nothing when there is no current action or it has no commands. -/
def handleCommandResult (st : ParseState) (stdout stderr : String)
    (stdoutLanguage stderrLanguage : Option String) : ParseState :=
  if st.inCleanup then
    match st.currentCleanup with
    | some (si, ci) =>
      { st with
        report := updScenario st.report si fun sc =>
          { sc with
            cleanup := updAt
              (fun item =>
                { item with
                  command :=
                    { item.command with
                      output := if stdout.length > 0 then stdout else stderr } })
              ci sc.cleanup } }
    | none => st
  else
    match st.currentAction with
    | none => st
    | some p =>
      match getActionAt st.report p with
      | none => st
      | some a =>
        if a.commands.isEmpty then st
        else
          { st with
            report := updActionAt st.report p fun a =>
              { a with
                commands := updAt
                  (fun c =>
                    { c with
                      stdout := some ⟨stdout, stdoutLanguage⟩
                      stderr := some ⟨stderr, stderrLanguage⟩ })
                  (a.commands.length - 1) a.commands } }

/-- Handle `RetryAttempt` (`handleRetryAttempt`): outside cleanup, clear
the current action's command list (collapse to the last attempt). -/
def handleRetryAttempt (st : ParseState) : ParseState :=
  if st.inCleanup then st
  else
    match st.currentAction with
    | none => st
    | some p =>
      { st with report := updActionAt st.report p fun a => { a with commands := [] } }

/-- Handle `RetryEnd` (`handleRetryEnd`): outside cleanup, store the
attempt count on the current action. -/
def handleRetryEnd (st : ParseState) (attempts : Nat) : ParseState :=
  if st.inCleanup then st
  else
    match st.currentAction with
    | none => st
    | some p =>
      { st with report := updActionAt st.report p fun a => { a with attempts := some attempts } }

/-- Clear per-scenario progress state (`clearScenarioProgressState`);
note that the current scenario itself is kept. -/
def clearScenarioProgressState (st : ParseState) : ParseState :=
  { st with
    currentBDD := none
    inCleanup := false
    currentAction := none
    currentOverviewIndex := none
    currentCleanup := none }

/-- Handle a BDD event (`handleBDDEvent`): push a new section (whose
actions array stays shared with `currentBDDSection`) onto the details of
the ensured scenario, which becomes current. -/
def handleBDDEvent (st : ParseState) (keyword description : String) : ParseState :=
  let (r0, idx) := ensureScenario st.hasCurrentScenario st.report
  match getAt r0.scenarios idx with
  | none => st
  | some sc =>
    let r1 := updScenario r0 idx fun s =>
      { s with details := s.details ++ [.bddSection ⟨keyword, description, []⟩] }
    { st with
      report := r1
      hasCurrentScenario := true
      currentBDD := some (idx, sc.details.length) }

/-- BDD keyword and description of an event, per `bddKeywordByKind`
(whose keys are `BDDGiven`, `BDDWhen`, `BDDThen`, `BDDAnd` and `BDBut`,
matching the event kinds of src/ts/recording/index.ts). -/
def bddKeywordOf : Event → Option (String × String)
  | .bddGiven d => some ("given", d)
  | .bddWhen d => some ("when", d)
  | .bddThen d => some ("then", d)
  | .bddAnd d => some ("and", d)
  | .bdBut d => some ("but", d)
  | _ => none

/-- Handle every non-BDD event (`handleNonBDDEvent`'s switch; its
`startsWith("BDD")` guard is unreachable because the dispatcher already
routed every BDD kind to `handleBDDEvent`). -/
def handleNonBDDEvent (st : ParseState) : Event → ParseState
  | .scenarioStart name => handleScenarioStart st name
  | .scenarioEnd => clearScenarioProgressState st
  | .revertingsStart =>
    { st with
      inCleanup := true
      currentAction := none
      currentOverviewIndex := none
      currentCleanup := none }
  | .revertingsEnd =>
    { st with
      inCleanup := false
      currentAction := none
      currentOverviewIndex := none
      currentCleanup := none }
  | .revertingsSkipped =>
    let (r0, idx) := ensureScenario st.hasCurrentScenario st.report
    { st with report := updScenario r0 idx fun sc => { sc with cleanupSkipped := true } }
  | .actionStart desc => handleActionStart st desc
  | .actionEnd ok err => handleActionEnd st ok err
  | .commandRun cmd args stdin stdinLang => handleCommandRun st cmd args stdin stdinLang
  | .commandResult _ stdout stderr soLang seLang =>
    handleCommandResult st stdout stderr soLang seLang
  | .retryEnd attempts _ _ => handleRetryEnd st attempts
  | .retryAttempt _ => handleRetryAttempt st
  | .retryStart => st
  | _ => st

/-- Dispatch one event (`parseEvents` loop body). -/
def handleEvent (st : ParseState) (ev : Event) : ParseState :=
  match bddKeywordOf ev with
  | some (k, d) => handleBDDEvent st k d
  | none => handleNonBDDEvent st ev

/-- Initial parser state. -/
def initParseState : ParseState :=
  ⟨⟨[]⟩, false, none, false, none, none, none⟩

/-- Fold the event stream into the report model (`parseEvents`). -/
def parseEvents (events : List Event) : Report :=
  (events.foldl handleEvent initParseState).report

/-! # Theorems -/

/-! ## C6 — Recorder view semantics

The spec claims snapshot semantics for `getEvents()`. The source returns
`this.events` itself (no copy), so the array a caller received from an
earlier `getEvents()` is the same cell the next `record` pushes into:
its contents afterwards are `getEvents` of the *new* state, not of the
state at the time of the call. -/

/-- C6 counterexample: starting from the empty recorder, the view
returned by `getEvents()` (the internal array itself) holds `[]` at
return time, but after a subsequent `record` the same cell holds one
event — the later append mutated the previously returned view, so the
claimed snapshot semantics fail. -/
theorem c6_snapshot_counterexample :
    Recorder.getEvents (Recorder.record (Recorder.getEvents []) .scenarioEnd) ≠
      Recorder.getEvents ([] : List Event) := by
  simp [Recorder.getEvents, Recorder.record]

/-- C6 (amended): `getEvents()` returns the full event sequence in
insertion order, but as a live reference to the recorder's internal
array: a `record` performed after `getEvents()` appends to that same
array, so the previously returned view observes exactly the old sequence
followed by the new event. -/
theorem c6_getEvents_live_insertion_order (s : List Event) (e : Event) :
    Recorder.getEvents (Recorder.record s e) = Recorder.getEvents s ++ [e] := by
  rfl

/-! ## C8 — AssertAbsence outcome mapping -/

/-- C8: the `AssertAbsence` query succeeds exactly when the underlying
`get` fails with an error whose message contains `(NotFound)`; a
successful `get` turns into an "Expected … to be absent, but it exists"
failure; and any other `get` error is re-raised unchanged. -/
theorem c8_assertAbsence_spec (kind name : String)
    (getResult : Except JsError String) :
    (assertAbsence kind name getResult = .ok () ↔
      ∃ e, getResult = .error e ∧
        containsSub "(NotFound)".data e.message.data = true) ∧
    (∀ y, assertAbsence kind name (.ok y) =
      .error (JsError.mk none
        ("Expected " ++ kind ++ " \"" ++ name ++ "\" to be absent, but it exists")
        none none)) ∧
    (∀ e, assertAbsence kind name (.error e) =
      if isNotFoundError e then .ok () else .error e) := by
  refine ⟨?_, fun y => rfl, fun e => rfl⟩
  constructor
  · intro h
    cases getResult with
    | ok y => simp [assertAbsence] at h
    | error e =>
      refine ⟨e, rfl, ?_⟩
      by_cases hnf : isNotFoundError e
      · simpa [isNotFoundError] using hnf
      · simp [assertAbsence, hnf] at h
  · rintro ⟨e, rfl, hnf⟩
    simp [assertAbsence, isNotFoundError, hnf]

/-! ## C2 — Reverting stack drain -/

/-- Helper: draining a top-first list of callbacks that all succeed
invokes all of them in order and empties the stack. -/
theorem revertPops_all_ok (run : α → Except ε Unit) (l : List α)
    (h : ∀ cb ∈ l, run cb = .ok ()) :
    Reverting.revertPops run l = (l.map .invoked, [], none) := by
  induction l with
  | nil => rfl
  | cons x xs ih =>
    have hx := h x (List.mem_cons_self x xs)
    have hrest : ∀ cb ∈ xs, run cb = .ok () := fun cb hcb =>
      h cb (List.mem_cons_of_mem x hcb)
    simp [Reverting.revertPops, hx, ih hrest]

/-- Helper: draining stops at the first failing callback; everything
above it runs, the failing callback is pushed back. -/
theorem revertPops_first_err (run : α → Except ε Unit) (l : List α)
    (fn : α) (e : ε) (rest : List α)
    (h : ∀ cb ∈ l, run cb = .ok ()) (hf : run fn = .error e) :
    Reverting.revertPops run (l ++ fn :: rest) =
      (l.map .invoked ++ [.invoked fn], rest.reverse ++ [fn], some e) := by
  induction l with
  | nil => simp [Reverting.revertPops, hf]
  | cons x xs ih =>
    have hx := h x (List.mem_cons_self x xs)
    have hrest : ∀ cb ∈ xs, run cb = .ok () := fun cb hcb =>
      h cb (List.mem_cons_of_mem x hcb)
    simp [Reverting.revertPops, hx, ih hrest]

/-- C2: `revert()` records `RevertingsStart`, invokes the registered
callbacks in exactly the reverse of their `add` order (awaiting each, as
the sequential trace shows), and records `RevertingsEnd` on clean exit;
when a callback raises, the callbacks above it on the stack have run in
reverse order, the failing callback is restored onto the stack, and
`RevertingsEnd` is still recorded before the error is re-raised. -/
theorem c2_revert_spec (run : α → Except ε Unit) (stack : List α) :
    ((∀ cb ∈ stack, run cb = .ok ()) →
      Reverting.revert run stack =
        ⟨.started :: stack.reverse.map .invoked ++ [.ended], [], none⟩) ∧
    (∀ pre fn suf e, stack = pre ++ fn :: suf → run fn = .error e →
      (∀ cb ∈ suf, run cb = .ok ()) →
      Reverting.revert run stack =
        ⟨.started :: (suf.reverse.map .invoked ++ [.invoked fn]) ++ [.ended],
         pre ++ [fn], some e⟩) := by
  constructor
  · intro h
    have h' : ∀ cb ∈ stack.reverse, run cb = .ok () := by
      intro cb hcb
      exact h cb (List.mem_reverse.mp hcb)
    simp [Reverting.revert, revertPops_all_ok run stack.reverse h']
  · rintro pre fn suf e rfl hf hsuf
    have hsuf' : ∀ cb ∈ suf.reverse, run cb = .ok () := by
      intro cb hcb
      exact hsuf cb (List.mem_reverse.mp hcb)
    have hrev : (pre ++ fn :: suf).reverse = suf.reverse ++ fn :: pre.reverse := by
      simp
    simp [Reverting.revert, hrev,
      revertPops_first_err run suf.reverse fn e pre.reverse hsuf' hf]

/-- C2 witness: a clean drain of two callbacks runs them in reverse add
order, and a drain over the stack `[1, 2, 3]` whose bottom callback `1`
fails runs `3, 2, 1`, leaves `[1]` on the stack, and re-raises after
recording `RevertingsEnd`. -/
theorem c2_revert_spec_witness :
    Reverting.revert (fun _ => (.ok () : Except String Unit)) [10, 20] =
      ⟨[.started, .invoked 20, .invoked 10, .ended], [], none⟩ ∧
    Reverting.revert
        (fun n => if n = 1 then .error "boom" else (.ok () : Except String Unit))
        [1, 2, 3] =
      ⟨[.started, .invoked 3, .invoked 2, .invoked 1, .ended], [1], some "boom"⟩ := by
  constructor
  · have h := (c2_revert_spec (fun _ => (.ok () : Except String Unit)) [10, 20]).1
      (fun cb _ => rfl)
    simpa using h
  · have h := (c2_revert_spec
        (fun n => if n = 1 then .error "boom" else (.ok () : Except String Unit))
        [1, 2, 3]).2 [] 1 [2, 3] "boom" rfl (by simp)
        (by intro cb hcb; simp at hcb; rcases hcb with rfl | rfl <;> rfl)
    simpa using h

/-! ## C1 — Preserve-on-failure flag is never consulted

README.md documents `KEST_PRESERVE_ON_FAILURE=1` as skipping cleanup for
failed scenarios, and `Reverting.skip` exists for exactly that purpose,
but `makeScenarioTest` (src/unnamed/part_015) reads only
`KEST_SHOW_REPORT`/`KEST_SHOW_EVENTS` and unconditionally runs
`scenario.cleanup()`, which is `reverting.revert()`; no code path reads
the preserve flag or calls `skip()`. -/

/-- C1 evaluation at the failing input: a scenario whose body failed,
run with `KEST_PRESERVE_ON_FAILURE=1` and one registered revert
callback, still drains the stack — the events contain `RevertingsStart`
and `RevertingsEnd`, not `RevertingsSkipped`, and the revert callback is
invoked, contradicting the claimed (and README-documented) skip
behaviour. -/
theorem c1_preserve_flag_ignored :
    (scenarioTestRun true "s" ["revert-cm"]
        (fun _ => (.ok () : Except String Unit)) (some "assertion failed")).events =
      [.scenarioStart "s", .revertingsStart, .revertingsEnd, .scenarioEnd] ∧
    (scenarioTestRun true "s" ["revert-cm"]
        (fun _ => (.ok () : Except String Unit)) (some "assertion failed")).invoked =
      ["revert-cm"] ∧
    Event.revertingsSkipped ∉
      (scenarioTestRun true "s" ["revert-cm"]
        (fun _ => (.ok () : Except String Unit)) (some "assertion failed")).events ∧
    (scenarioTestRun true "s" ["revert-cm"]
        (fun _ => (.ok () : Except String Unit)) (some "assertion failed")).thrown =
      some "assertion failed" := by
  refine ⟨rfl, rfl, ?_, rfl⟩
  intro hmem
  have : (scenarioTestRun true "s" ["revert-cm"]
      (fun _ => (.ok () : Except String Unit)) (some "assertion failed")).events =
      [.scenarioStart "s", .revertingsStart, .revertingsEnd, .scenarioEnd] := rfl
  rw [this] at hmem
  simp at hmem

/-! ## C3 / C4 — Retry engine events and attempt counting -/

/-- Test for a `RetryAttempt` event. -/
def isAttemptEv : REvent ε → Bool
  | .attempt _ => true
  | _ => false

/-- Number of `RetryAttempt` events in a list. -/
def countAttempts (l : List (REvent ε)) : Nat := l.countP isAttemptEv

/-- Helper: attempt counting distributes over append. -/
theorem countAttempts_append (l1 l2 : List (REvent ε)) :
    countAttempts (l1 ++ l2) = countAttempts l1 + countAttempts l2 :=
  List.countP_append _ _ _

/-- Helper: the polling loop only appends to the event list. -/
theorem retryLoop_events_mono (fn : Nat → Except ε α) (clock : Nat → Nat)
    (dl iv : Nat) :
    ∀ (fuel i calls retries : Nat) (lastErr : ε) (events : List (REvent ε))
      (run : RetryRun ε α),
      retryLoop fn clock dl iv fuel i calls retries lastErr events = some run →
      ∀ x ∈ events, x ∈ run.events := by
  intro fuel
  induction fuel with
  | zero =>
    intro i calls retries lastErr events run h
    simp [retryLoop] at h
  | succ f ih =>
    intro i calls retries lastErr events run h x hx
    rw [retryLoop] at h
    by_cases h1 : clock i < dl
    · rw [if_pos h1] at h
      by_cases h2 : dl ≤ clock (i + 2)
      · rw [if_pos h2] at h
        cases h
        simp only [retryAfterLoop]
        split
        · exact List.mem_append_left _ hx
        · exact hx
      · rw [if_neg h2] at h
        cases hcall : fn calls with
        | ok v =>
          rw [hcall] at h
          cases h
          exact List.mem_append_left _ (List.mem_append_left _ hx)
        | error e =>
          rw [hcall] at h
          exact ih _ _ _ _ _ _ h x (List.mem_append_left _ hx)
    · rw [if_neg h1] at h
      cases h
      simp only [retryAfterLoop]
      split
      · exact List.mem_append_left _ hx
      · exact hx

/-- Helper: invariant of the polling loop for C4 — if the event list so
far holds exactly `retries` attempts and no `RetryEnd`, and the call
counter is `retries + 1`, then any `RetryEnd attempts` in the completed
run's events has the attempt count equal to the number of
`RetryAttempt` events and to the number of calls minus one. -/
theorem retryLoop_attempt_count (fn : Nat → Except ε α) (clock : Nat → Nat)
    (dl iv : Nat) :
    ∀ (fuel i calls retries : Nat) (lastErr : ε) (events : List (REvent ε))
      (run : RetryRun ε α),
      retryLoop fn clock dl iv fuel i calls retries lastErr events = some run →
      countAttempts events = retries →
      calls = retries + 1 →
      (∀ a s e, REvent.ended a s e ∉ events) →
      ∀ a s e, REvent.ended a s e ∈ run.events →
        countAttempts run.events = a ∧ run.calls = a + 1 := by
  intro fuel
  induction fuel with
  | zero =>
    intro i calls retries lastErr events run h
    simp [retryLoop] at h
  | succ f ih =>
    intro i calls retries lastErr events run h hcount hcalls hnoend a s e hmem
    simp only [countAttempts] at hcount
    rw [retryLoop] at h
    by_cases h1 : clock i < dl
    · rw [if_pos h1] at h
      by_cases h2 : dl ≤ clock (i + 2)
      · rw [if_pos h2] at h
        cases h
        by_cases hr : 0 < retries
        · simp only [retryAfterLoop, if_pos hr] at hmem ⊢
          rcases List.mem_append.mp hmem with hmem | hmem
          · exact absurd hmem (hnoend a s e)
          · injection List.mem_singleton.mp hmem with ha hs he
            refine ⟨?_, by omega⟩
            simp [countAttempts, List.countP_append, isAttemptEv]
            omega
        · simp only [retryAfterLoop, if_neg hr] at hmem ⊢
          exact absurd hmem (hnoend a s e)
      · rw [if_neg h2] at h
        cases hcall : fn calls with
        | ok v =>
          rw [hcall] at h
          cases h
          dsimp only at hmem ⊢
          rcases List.mem_append.mp hmem with hmem | hmem
          · rcases List.mem_append.mp hmem with hmem | hmem
            · exact absurd hmem (hnoend a s e)
            · exact absurd (List.mem_singleton.mp hmem) (by simp)
          · injection List.mem_singleton.mp hmem with ha hs he
            refine ⟨?_, by omega⟩
            simp [countAttempts, List.countP_append, isAttemptEv]
            omega
        | error e' =>
          rw [hcall] at h
          refine ih (i + 3) (calls + 1) (retries + 1) e'
            (events ++ [.attempt (retries + 1)]) run h ?_ (by omega) ?_ a s e hmem
          · simp [countAttempts, List.countP_append, isAttemptEv]
            omega
          · intro a' s' e'' hmem'
            rcases List.mem_append.mp hmem' with hmem' | hmem'
            · exact absurd hmem' (hnoend a' s' e'')
            · exact absurd (List.mem_singleton.mp hmem') (by simp)
    · rw [if_neg h1] at h
      cases h
      by_cases hr : 0 < retries
      · simp only [retryAfterLoop, if_pos hr] at hmem ⊢
        rcases List.mem_append.mp hmem with hmem | hmem
        · exact absurd hmem (hnoend a s e)
        · injection List.mem_singleton.mp hmem with ha hs he
          refine ⟨?_, by omega⟩
          simp [countAttempts, List.countP_append, isAttemptEv]
          omega
      · simp only [retryAfterLoop, if_neg hr] at hmem ⊢
        exact absurd hmem (hnoend a s e)

/-- C4: in any completed `retryUntil` run whose events contain a
`RetryEnd` (i.e. at least one retry attempt occurred), the number of
`RetryAttempt` events equals the `attempts` field of that `RetryEnd`,
and the total number of thunk invocations equals `attempts + 1`. -/
theorem c4_attempt_count (fn : Nat → Except ε α) (clock : Nat → Nat)
    (timeoutMs intervalMs fuel : Nat) (run : RetryRun ε α)
    (hrun : retryUntil fn clock timeoutMs intervalMs fuel = some run)
    (a : Nat) (s : Bool) (err : Option ε)
    (hmem : REvent.ended a s err ∈ run.events) :
    countAttempts run.events = a ∧ run.calls = a + 1 := by
  rw [retryUntil] at hrun
  cases h0 : fn 0 with
  | ok v =>
    rw [h0] at hrun
    cases hrun
    simp at hmem
  | error e0 =>
    rw [h0] at hrun
    exact retryLoop_attempt_count fn clock (clock 0 + timeoutMs) intervalMs
      fuel 1 1 0 e0 [.start] run hrun (by simp [countAttempts, isAttemptEv])
      rfl (by simp) a s err hmem

/-- C4 witness: a run whose first call fails and whose single retry
succeeds records one `RetryAttempt` and `RetryEnd` with `attempts = 1`,
and invoked the thunk twice. -/
theorem c4_attempt_count_witness :
    countAttempts ([.start, .attempt 1, .ended 1 true none] : List (REvent String)) = 1 ∧
    (2 : Nat) = 1 + 1 :=
  c4_attempt_count (fun k => if k = 0 then .error "nope" else (.ok 7 : Except String Nat))
    (fun i => i) 1000 1 3 ⟨[.start, .attempt 1, .ended 1 true none], 2, .ok 7⟩
    rfl 1 true none (by decide)

/-- C3 counterexample: with `timeout = 0` and a failing thunk,
`retryUntil` performs exactly one invocation but records `RetryStart` —
the event list is `[RetryStart]`, not empty, refuting "records no retry
events … regardless of whether that single invocation succeeds or
fails" and, at the same input, "RetryStart is recorded only if at least
one retry attempt will follow" (no attempt ever follows here). -/
theorem c3_timeout_zero_counterexample :
    retryUntil (fun _ => (.error "boom" : Except String Unit)) (fun _ => 0) 0 200 1 =
      some ⟨[.start], 1, .error "boom"⟩ ∧
    ([REvent.start] : List (REvent String)) ≠ [] :=
  ⟨rfl, by simp⟩

/-- C3 (amended): with `timeout = 0` (and a monotone clock) the thunk is
invoked exactly once and no `RetryAttempt`/`RetryEnd` is recorded; the
event list is empty when that single invocation succeeds and exactly
`[RetryStart]` when it fails — `RetryStart` is recorded exactly when the
first call failed, whether or not any retry attempt follows. -/
theorem c3_retry_events (fn : Nat → Except ε α) (clock : Nat → Nat)
    (intervalMs fuel : Nat) (hfuel : 0 < fuel)
    (hmono : ∀ i j, i ≤ j → clock i ≤ clock j) :
    (∀ v, fn 0 = .ok v →
      retryUntil fn clock 0 intervalMs fuel = some ⟨[], 1, .ok v⟩) ∧
    (∀ e, fn 0 = .error e →
      retryUntil fn clock 0 intervalMs fuel = some ⟨[.start], 1, .error e⟩) ∧
    (∀ timeoutMs run, retryUntil fn clock timeoutMs intervalMs fuel = some run →
      (REvent.start ∈ run.events ↔ ∃ e, fn 0 = .error e)) := by
  refine ⟨?_, ?_, ?_⟩
  · intro v h0
    rw [retryUntil, h0]
  · intro e h0
    rw [retryUntil, h0]
    obtain ⟨f, rfl⟩ : ∃ f, fuel = f + 1 := ⟨fuel - 1, by omega⟩
    have hle : clock 0 ≤ clock 1 := hmono 0 1 (by omega)
    simp only [retryLoop]
    rw [if_neg (by omega)]
    rfl
  · intro timeoutMs run hrun
    rw [retryUntil] at hrun
    cases h0 : fn 0 with
    | ok v =>
      rw [h0] at hrun
      cases hrun
      simp
    | error e0 =>
      rw [h0] at hrun
      have hst := retryLoop_events_mono fn clock (clock 0 + timeoutMs) intervalMs
        fuel 1 1 0 e0 [.start] run hrun .start (by simp)
      exact ⟨fun _ => ⟨e0, rfl⟩, fun _ => hst⟩

/-- C3 witness: at `timeout = 0` with a constant clock, a succeeding
thunk yields no retry events and one call, and a failing thunk yields
exactly `[RetryStart]` and one call. -/
theorem c3_retry_events_witness :
    retryUntil (fun _ => (.ok 42 : Except String Nat)) (fun _ => 0) 0 200 1 =
      some ⟨[], 1, .ok 42⟩ ∧
    retryUntil (fun _ => (.error "e" : Except String Nat)) (fun _ => 5) 0 100 3 =
      some ⟨[.start], 1, .error "e"⟩ :=
  ⟨(c3_retry_events _ _ 200 1 (by omega) (fun _ _ _ => Nat.le_refl 0)).1 42 rfl,
   (c3_retry_events _ _ 100 3 (by omega) (fun _ _ _ => Nat.le_refl 5)).2.1 "e" rfl⟩

/-! ## C5 — Timeout errors and cause unwrapping

`retryUntil` (src/ts/retry.ts lines 95–106) sets
`lastError = lastError ?? new Error("Timed out after …")`: when an
underlying failure exists it is re-raised *unchanged* — no "Timed out
after" wrapper and no `cause` is attached (the synthesized error, used
only when no error value exists, has no cause either). The parser's
`applyRegularActionEnd` (the cited symbol) stores the `ActionEnd`
error's own `message` and `stack`; it never inspects `cause`. (A
`Timed out after` cause-unwrapping step does exist in the *old*
monolithic reporter, src/ts/reporter/markdown.ts
`unwrapRetryTimeoutCauseMessage`, but not in the parser the claim
describes.) -/

/-- Helper: invariant of the polling loop — the error a completed run
throws is the error of the last thunk invocation. -/
theorem retryLoop_result_last_error (fn : Nat → Except ε α) (clock : Nat → Nat)
    (dl iv : Nat) :
    ∀ (fuel i calls retries : Nat) (lastErr : ε) (events : List (REvent ε))
      (run : RetryRun ε α),
      retryLoop fn clock dl iv fuel i calls retries lastErr events = some run →
      fn (calls - 1) = .error lastErr →
      ∀ e, run.result = .error e → fn (run.calls - 1) = .error e := by
  intro fuel
  induction fuel with
  | zero =>
    intro i calls retries lastErr events run h
    simp [retryLoop] at h
  | succ f ih =>
    intro i calls retries lastErr events run h hlast e hres
    rw [retryLoop] at h
    by_cases h1 : clock i < dl
    · rw [if_pos h1] at h
      by_cases h2 : dl ≤ clock (i + 2)
      · rw [if_pos h2] at h
        cases h
        simp only [retryAfterLoop] at hres ⊢
        injection hres with he
        subst he
        exact hlast
      · rw [if_neg h2] at h
        cases hcall : fn calls with
        | ok v =>
          rw [hcall] at h
          cases h
          simp at hres
        | error e' =>
          rw [hcall] at h
          refine ih _ _ _ _ _ _ h ?_ e hres
          simpa using hcall
    · rw [if_neg h1] at h
      cases h
      simp only [retryAfterLoop] at hres ⊢
      injection hres with he
      subst he
      exact hlast

/-- C5 counterexample: feeding the parser an `ActionEnd` whose error has
the message "Timed out after 5s" and a cause carrying the real diff, the
report keeps the outer message and the outer stack — the cause is not
substituted (and the cause's message differs from what is reported).
Moreover, `retryUntil` with an underlying failure raises that failure
itself, which is not a synthesized "Timed out after" error. -/
theorem c5_counterexample :
    parseEvents [.scenarioStart "s", .actionStart "Assert",
      .actionEnd false
        (some (.mk (some "Error") "Timed out after 5s"
          (some "Error: Timed out after 5s\n    at wrapper (W:1:1)")
          (some (.mk (some "Error") "- Expected\n+ Received"
            (some "Error: diff\n    at cause (C:2:2)") none))))] =
      ⟨[⟨"s", [⟨"Assert", .failure⟩],
        [.action ⟨"Assert", none, [],
          some ⟨⟨"Timed out after 5s", some "text"⟩,
            some "Error: Timed out after 5s\n    at wrapper (W:1:1)"⟩⟩],
        [], false⟩]⟩ ∧
    ("Timed out after 5s" : String) ≠ "- Expected\n+ Received" ∧
    retryUntil (fun _ => (.error "connection refused" : Except String Unit))
        (fun _ => 3) 0 100 2 =
      some ⟨[.start], 1, .error "connection refused"⟩ ∧
    startsWithL "Timed out after ".data "connection refused".data = false := by
  exact ⟨rfl, by decide, rfl, by decide⟩

/-- C5 (amended): when a retried action gives up, the error `retryUntil`
raises is the unchanged error of the last thunk invocation (a
synthesized "Timed out after D" error without a cause would only appear
when no error value exists at all), and the event-to-report parser
(`applyRegularActionEnd`) reports an `ActionEnd` error's own message
(classified by `errorLanguage`) and own stack, performing no
cause unwrapping. -/
theorem c5_last_error_and_no_unwrapping :
    (∀ (ε α : Type) (fn : Nat → Except ε α) (clock : Nat → Nat)
      (timeoutMs intervalMs fuel : Nat) (run : RetryRun ε α) (e : ε),
      retryUntil fn clock timeoutMs intervalMs fuel = some run →
      run.result = .error e →
      fn (run.calls - 1) = .error e) ∧
    (∀ (name desc : String) (e : JsError),
      parseEvents [.scenarioStart name, .actionStart desc,
          .actionEnd false (some e)] =
        ⟨[⟨name, [⟨desc, .failure⟩],
          [.action ⟨desc, none, [],
            some ⟨⟨e.message, some (errorLanguage e.message)⟩, e.stack⟩⟩],
          [], false⟩]⟩) := by
  constructor
  · intro ε α fn clock timeoutMs intervalMs fuel run e hrun hres
    rw [retryUntil] at hrun
    cases h0 : fn 0 with
    | ok v =>
      rw [h0] at hrun
      cases hrun
      simp at hres
    | error e0 =>
      rw [h0] at hrun
      exact retryLoop_result_last_error fn clock (clock 0 + timeoutMs)
        intervalMs fuel 1 1 0 e0 [.start] run hrun (by simpa using h0) e hres
  · intro name desc e
    rfl

/-- C5 witness: the amended theorem applied to a concrete timed-out run
(the raised error is the thunk's own last error) and to a concrete
`ActionEnd` (the reported message and stack are the error's own). -/
theorem c5_last_error_witness :
    ((fun _ => (.error "always" : Except String Unit)) (1 - 1) =
      .error "always") ∧
    parseEvents [.scenarioStart "n", .actionStart "d",
        .actionEnd false (some (.mk none "m" (some "st") none))] =
      ⟨[⟨"n", [⟨"d", .failure⟩],
        [.action ⟨"d", none, [], some ⟨⟨"m", some (errorLanguage "m")⟩, some "st"⟩⟩],
        [], false⟩]⟩ :=
  ⟨c5_last_error_and_no_unwrapping.1 String Unit
      (fun _ => .error "always") (fun _ => 0) 0 200 1
      ⟨[.start], 1, .error "always"⟩ "always" rfl rfl,
   c5_last_error_and_no_unwrapping.2 "n" "d" (.mk none "m" (some "st") none)⟩

/-! ## C9 — Diff classification of error messages -/

/-- Helper: correctness of the `isDiffLike` loop. Provided the two seen
flags are not already both set (they never are, since no line starts
with both `+` and `-`), the loop returns `true` exactly when, together
with the flags, some line is a plus line and some line is a minus
line. -/
theorem isDiffLikeGo_spec :
    ∀ (ls : List (List Char)) (p m : Bool), ¬(p = true ∧ m = true) →
      (isDiffLikeGo ls p m = true ↔
        (p = true ∨ ∃ l ∈ ls, plusLine l = true) ∧
        (m = true ∨ ∃ l ∈ ls, minusLine l = true)) := by
  intro ls
  induction ls with
  | nil =>
    intro p m hpm
    simpa [isDiffLikeGo] using hpm
  | cons l rest ih =>
    intro p m hpm
    rw [isDiffLikeGo]
    by_cases hc : ((p || plusLine l) && (m || minusLine l)) = true
    · rw [if_pos hc]
      simp only [Bool.and_eq_true, Bool.or_eq_true] at hc
      obtain ⟨hp, hm⟩ := hc
      constructor
      · intro _
        refine ⟨?_, ?_⟩
        · rcases hp with hp | hp
          · exact Or.inl hp
          · exact Or.inr ⟨l, List.mem_cons_self l rest, hp⟩
        · rcases hm with hm | hm
          · exact Or.inl hm
          · exact Or.inr ⟨l, List.mem_cons_self l rest, hm⟩
      · intro _
        rfl
    · rw [if_neg hc]
      have hpm' : ¬((p || plusLine l) = true ∧ (m || minusLine l) = true) := by
        intro hand
        exact hc (by simp [hand.1, hand.2])
      rw [ih _ _ hpm']
      simp only [Bool.or_eq_true, List.mem_cons]
      constructor
      · rintro ⟨hp, hm⟩
        refine ⟨?_, ?_⟩
        · rcases hp with (hp | hp) | ⟨x, hx, hpx⟩
          · exact Or.inl hp
          · exact Or.inr ⟨l, Or.inl rfl, hp⟩
          · exact Or.inr ⟨x, Or.inr hx, hpx⟩
        · rcases hm with (hm | hm) | ⟨x, hx, hmx⟩
          · exact Or.inl hm
          · exact Or.inr ⟨l, Or.inl rfl, hm⟩
          · exact Or.inr ⟨x, Or.inr hx, hmx⟩
      · rintro ⟨hp, hm⟩
        refine ⟨?_, ?_⟩
        · rcases hp with hp | ⟨x, hx | hx, hpx⟩
          · exact Or.inl (Or.inl hp)
          · exact Or.inl (Or.inr (hx ▸ hpx))
          · exact Or.inr ⟨x, hx, hpx⟩
        · rcases hm with hm | ⟨x, hx | hx, hmx⟩
          · exact Or.inl (Or.inl hm)
          · exact Or.inl (Or.inr (hx ▸ hmx))
          · exact Or.inr ⟨x, hx, hmx⟩

/-- Helper: `isDiffLike` holds exactly when the lines contain both a
plus line and a minus line. -/
theorem isDiffLike_iff (s : List Char) :
    isDiffLike s = true ↔
      (∃ l ∈ splitLines s, plusLine l = true) ∧
      (∃ l ∈ splitLines s, minusLine l = true) := by
  have h := isDiffLikeGo_spec (splitLines s) false false (by simp)
  simpa [isDiffLike] using h

/-- Language tag of the first reported error of the first (standalone)
action of the first scenario — the probe used to observe the parser's
classification of an error message. -/
def firstDetailErrorLanguage (r : Report) : Option String :=
  match r.scenarios with
  | sc :: _ =>
    match sc.details with
    | .action a :: _ =>
      match a.error with
      | some err => err.message.language
      | none => none
    | _ => none
  | _ => none

/-- C9: the parser classifies a failed action's error message with
language `"diff"` exactly when, after ANSI stripping, it contains a line
starting with `+` (not a `+++` header) and a line starting with `-` (not
a `---` header); otherwise the language is `"text"`. -/
theorem c9_diff_classification (msg : String) (stk : Option String)
    (cause : Option JsError) (name desc : String) :
    (firstDetailErrorLanguage
        (parseEvents [.scenarioStart name, .actionStart desc,
          .actionEnd false (some (.mk none msg stk cause))]) = some "diff" ↔
      (∃ l ∈ splitLines (stripAnsi msg.data), plusLine l = true) ∧
      (∃ l ∈ splitLines (stripAnsi msg.data), minusLine l = true)) ∧
    (firstDetailErrorLanguage
        (parseEvents [.scenarioStart name, .actionStart desc,
          .actionEnd false (some (.mk none msg stk cause))]) = some "text" ↔
      ¬((∃ l ∈ splitLines (stripAnsi msg.data), plusLine l = true) ∧
        (∃ l ∈ splitLines (stripAnsi msg.data), minusLine l = true))) := by
  have hred : firstDetailErrorLanguage
      (parseEvents [.scenarioStart name, .actionStart desc,
        .actionEnd false (some (.mk none msg stk cause))]) =
      some (errorLanguage msg) := rfl
  rw [hred, errorLanguage]
  by_cases hd : isDiffLike (stripAnsi msg.data) = true
  · rw [if_pos hd]
    constructor
    · exact ⟨fun _ => (isDiffLike_iff _).mp hd, fun _ => rfl⟩
    · constructor
      · intro h
        exact absurd h (by simp)
      · intro hn
        exact absurd ((isDiffLike_iff _).mp hd) hn
  · rw [if_neg hd]
    have hnd : ¬((∃ l ∈ splitLines (stripAnsi msg.data), plusLine l = true) ∧
        (∃ l ∈ splitLines (stripAnsi msg.data), minusLine l = true)) := by
      intro hboth
      exact hd ((isDiffLike_iff _).mpr hboth)
    constructor
    · constructor
      · intro h
        exact absurd h (by simp)
      · intro hboth
        exact absurd hboth hnd
    · exact ⟨fun _ => hnd, fun _ => rfl⟩

/-! ## C10 — Parser totality, ignored events, implicit scenario

The model `parseEvents` is a total function by construction, matching
the source, whose handlers only guard with early returns and never
throw. The interesting content is which events are silently ignored and
what happens before any `ScenarioStart`. The claim as frozen is wrong on
one point: an `ActionEnd` is *also* ignored when no scenario is current
(`applyRegularActionEnd` checks `currentScenario` before anything else),
even though a current action exists — so an `ActionEnd` arriving before
any `ScenarioStart` is dropped rather than attached to the implicitly
created scenario. Likewise only `ActionStart`, BDD events and
`RevertingsSkipped` materialise the implicit scenario;
`RevertingsStart`/`RevertingsEnd` merely toggle cleanup mode. -/

/-- Helper: looking up the element just appended. -/
theorem getAt_append_length (l : List α) (x : α) :
    getAt (l ++ [x]) l.length = some x := by
  induction l with
  | nil => rfl
  | cons y ys ih => simp [getAt] at ih ⊢

/-- Helper: updating the element just appended. -/
theorem updAt_append_length (f : α → α) (l : List α) (x : α) :
    updAt f l.length (l ++ [x]) = l ++ [f x] := by
  induction l with
  | nil => rfl
  | cons y ys ih => simp [updAt, ih]

/-- C10 counterexample: an `ActionStart`/`ActionEnd` pair arriving
before any `ScenarioStart` yields the implicit scenario with the action
still `pending` and without the error — the `ActionEnd` was ignored
because no scenario is current (even though a current action exists), so
it is not "attached to an implicitly created scenario" as claimed, and
its context condition is not covered by "no current action or cleanup
item". -/
theorem c10_counterexample :
    parseEvents [.actionStart "A",
        .actionEnd false (some (.mk none "boom" none none))] =
      ⟨[⟨"Scenario", [⟨"A", .pending⟩], [.action ⟨"A", none, [], none⟩], [],
        false⟩]⟩ ∧
    ∀ e : RError,
      (⟨[⟨"Scenario", [⟨"A", .pending⟩], [.action ⟨"A", none, [], none⟩], [],
        false⟩]⟩ : Report) ≠
      ⟨[⟨"Scenario", [⟨"A", .failure⟩], [.action ⟨"A", none, [], some e⟩], [],
        false⟩]⟩ := by
  refine ⟨rfl, ?_⟩
  intro e h
  simp [Report.mk.injEq] at h

/-- C10 (amended): the parser is a total fold; `CommandRun`,
`CommandResult`, `RetryAttempt` and `RetryEnd` events lacking their
expected context (no current action outside cleanup, no current cleanup
item inside cleanup) are silently ignored; `ActionEnd` is ignored under
the same conditions and additionally whenever no scenario is current;
and an `ActionStart`, BDD, or `RevertingsSkipped` event arriving before
any `ScenarioStart` attaches its content to an implicitly created
scenario named "Scenario" (which only a BDD event also makes
current). -/
theorem c10_parser_ignores_and_implicit_scenario :
    (∀ (st : ParseState) cmd args stdin lang,
      st.inCleanup = false → st.currentAction = none →
      handleEvent st (.commandRun cmd args stdin lang) = st) ∧
    (∀ (st : ParseState) cmd args stdin lang,
      st.inCleanup = true → st.currentCleanup = none →
      handleEvent st (.commandRun cmd args stdin lang) = st) ∧
    (∀ (st : ParseState) ec so se sol sel,
      st.inCleanup = false → st.currentAction = none →
      handleEvent st (.commandResult ec so se sol sel) = st) ∧
    (∀ (st : ParseState) ec so se sol sel,
      st.inCleanup = true → st.currentCleanup = none →
      handleEvent st (.commandResult ec so se sol sel) = st) ∧
    (∀ (st : ParseState) n,
      st.inCleanup = false → st.currentAction = none →
      handleEvent st (.retryAttempt n) = st) ∧
    (∀ (st : ParseState) a s e,
      st.inCleanup = false → st.currentAction = none →
      handleEvent st (.retryEnd a s e) = st) ∧
    (∀ (st : ParseState) ok err,
      st.inCleanup = false → st.currentAction = none →
      handleEvent st (.actionEnd ok err) = st) ∧
    (∀ (st : ParseState) ok err,
      st.inCleanup = false → st.hasCurrentScenario = false →
      handleEvent st (.actionEnd ok err) = st) ∧
    (∀ (st : ParseState) ok err,
      st.inCleanup = true → st.currentCleanup = none →
      handleEvent st (.actionEnd ok err) = st) ∧
    (∀ (st : ParseState) d,
      st.hasCurrentScenario = false → st.inCleanup = false →
      st.currentBDD = none →
      handleEvent st (.actionStart d) =
        { st with
          report := ⟨st.report.scenarios ++
            [⟨"Scenario", [⟨d, .pending⟩], [.action ⟨d, none, [], none⟩], [],
              false⟩]⟩
          currentAction := some (.top st.report.scenarios.length 0)
          currentOverviewIndex := some 0 }) ∧
    (∀ (st : ParseState) (ev : Event) k d,
      st.hasCurrentScenario = false → bddKeywordOf ev = some (k, d) →
      handleEvent st ev =
        { st with
          report := ⟨st.report.scenarios ++
            [⟨"Scenario", [], [.bddSection ⟨k, d, []⟩], [], false⟩]⟩
          hasCurrentScenario := true
          currentBDD := some (st.report.scenarios.length, 0) }) ∧
    (∀ (st : ParseState),
      st.hasCurrentScenario = false →
      handleEvent st .revertingsSkipped =
        { st with
          report := ⟨st.report.scenarios ++
            [⟨"Scenario", [], [], [], true⟩]⟩ }) := by
  refine ⟨?_, ?_, ?_, ?_, ?_, ?_, ?_, ?_, ?_, ?_, ?_, ?_⟩
  · intro st cmd args stdin lang h1 h2
    simp [handleEvent, bddKeywordOf, handleNonBDDEvent, handleCommandRun, h1, h2]
  · intro st cmd args stdin lang h1 h2
    simp [handleEvent, bddKeywordOf, handleNonBDDEvent, handleCommandRun, h1, h2]
  · intro st ec so se sol sel h1 h2
    simp [handleEvent, bddKeywordOf, handleNonBDDEvent, handleCommandResult, h1, h2]
  · intro st ec so se sol sel h1 h2
    simp [handleEvent, bddKeywordOf, handleNonBDDEvent, handleCommandResult, h1, h2]
  · intro st n h1 h2
    simp [handleEvent, bddKeywordOf, handleNonBDDEvent, handleRetryAttempt, h1, h2]
  · intro st a s e h1 h2
    simp [handleEvent, bddKeywordOf, handleNonBDDEvent, handleRetryEnd, h1, h2]
  · intro st ok err h1 h2
    simp [handleEvent, bddKeywordOf, handleNonBDDEvent, handleActionEnd,
      applyRegularActionEnd, h1, h2]
  · intro st ok err h1 h2
    simp [handleEvent, bddKeywordOf, handleNonBDDEvent, handleActionEnd,
      applyRegularActionEnd, h1, h2]
  · intro st ok err h1 h2
    cases st with
    | mk report hasCur bdd inC curAct curOv curCl =>
      simp only [ParseState.inCleanup] at h1
      simp only [ParseState.currentCleanup] at h2
      subst h1
      subst h2
      simp [handleEvent, bddKeywordOf, handleNonBDDEvent, handleActionEnd,
        handleCleanupActionEnd]
  · intro st d h1 h2 h3
    cases st with
    | mk report hasCur bdd inC curAct curOv curCl =>
      cases report with
      | mk scenarios =>
        simp only [ParseState.hasCurrentScenario] at h1
        simp only [ParseState.inCleanup] at h2
        simp only [ParseState.currentBDD] at h3
        subst h1
        subst h2
        subst h3
        simp [handleEvent, bddKeywordOf, handleNonBDDEvent, handleActionStart,
          ensureScenario, freshScenario, getAt_append_length, updScenario,
          updAt_append_length]
  · intro st ev k d h1 hbdd
    cases st with
    | mk report hasCur bdd inC curAct curOv curCl =>
      cases report with
      | mk scenarios =>
        simp only [ParseState.hasCurrentScenario] at h1
        subst h1
        cases ev <;> simp only [bddKeywordOf, Option.some.injEq, reduceCtorEq,
          Prod.mk.injEq, false_and, and_false] at hbdd <;>
          obtain ⟨rfl, rfl⟩ := hbdd <;>
          simp [handleEvent, bddKeywordOf, handleBDDEvent, ensureScenario,
            freshScenario, getAt_append_length, updScenario, updAt_append_length]
  · intro st h1
    cases st with
    | mk report hasCur bdd inC curAct curOv curCl =>
      cases report with
      | mk scenarios =>
        simp only [ParseState.hasCurrentScenario] at h1
        subst h1
        simp [handleEvent, bddKeywordOf, handleNonBDDEvent, ensureScenario,
          freshScenario, updScenario, updAt_append_length]

/-- C10 witness: from the initial state, a context-less `CommandRun` is
ignored, while an `ActionStart`, a `BDDGiven` and a `RevertingsSkipped`
each materialise the implicit "Scenario". -/
theorem c10_parser_witness :
    handleEvent initParseState (.commandRun "kubectl" ["get"] none none) =
      initParseState ∧
    handleEvent initParseState (.actionStart "A") =
      { initParseState with
        report := ⟨[⟨"Scenario", [⟨"A", .pending⟩],
          [.action ⟨"A", none, [], none⟩], [], false⟩]⟩
        currentAction := some (.top 0 0)
        currentOverviewIndex := some 0 } ∧
    handleEvent initParseState (.bddGiven "g") =
      { initParseState with
        report := ⟨[⟨"Scenario", [], [.bddSection ⟨"given", "g", []⟩], [],
          false⟩]⟩
        hasCurrentScenario := true
        currentBDD := some (0, 0) } ∧
    handleEvent initParseState .revertingsSkipped =
      { initParseState with report := ⟨[⟨"Scenario", [], [], [], true⟩]⟩ } := by
  obtain ⟨h1, _, _, _, _, _, _, _, _, h10, h11, h12⟩ :=
    c10_parser_ignores_and_implicit_scenario
  exact ⟨h1 initParseState "kubectl" ["get"] none none rfl rfl,
    h10 initParseState "A" rfl rfl rfl,
    h11 initParseState (.bddGiven "g") "given" "g" rfl rfl,
    h12 initParseState rfl⟩

/-! ## C7 — Duration render/parse round trip

Proof stack: correctness of decimal rendering (`toDecChars`), maximal
munch of the digit scanner over a rendered number, the unit alternation
on each of the rendered forms, and the token loop over the concatenated
compound form. -/

/-- Helper: rendered digit characters are decimal digits. -/
theorem isDigitC_digitChar (d : Nat) (h : d < 10) :
    isDigitC (digitChar d) = true := by
  interval_cases d <;> decide

/-- Helper: reading back a rendered digit character. -/
theorem digitVal_digitChar (d : Nat) (h : d < 10) :
    digitVal (digitChar d) = d := by
  interval_cases d <;> decide

/-- Helper: the accumulator of `toDecAux` is a suffix of its result. -/
theorem toDecAux_append (fuel : Nat) :
    ∀ (n : Nat) (acc : List Char),
      toDecAux fuel n acc = toDecAux fuel n [] ++ acc := by
  induction fuel with
  | zero => intro n acc; simp [toDecAux]
  | succ f ih =>
    intro n acc
    by_cases hn : n = 0
    · simp [toDecAux, hn]
    · rw [toDecAux, toDecAux, if_neg hn, if_neg hn, ih (n / 10),
        ih (n / 10) [digitChar (n % 10)]]
      simp

/-- Helper: `toDecAux` with zero value returns the accumulator. -/
theorem toDecAux_zero (fuel : Nat) (acc : List Char) :
    toDecAux fuel 0 acc = acc := by
  cases fuel <;> simp [toDecAux]

/-- Helper: appending one digit multiplies the value by ten. -/
theorem valOfDigits_append_singleton (xs : List Char) (c : Char) :
    valOfDigits (xs ++ [c]) = valOfDigits xs * 10 + digitVal c := by
  simp [valOfDigits, List.foldl_append]

/-- Helper: value of the digits rendered by `toDecAux`. -/
theorem toDecAux_val (fuel : Nat) :
    ∀ n, 0 < n → n ≤ fuel → valOfDigits (toDecAux fuel n []) = n := by
  induction fuel with
  | zero => intro n hn hle; omega
  | succ f ih =>
    intro n hn hle
    rw [toDecAux, if_neg (by omega), toDecAux_append,
      valOfDigits_append_singleton, digitVal_digitChar _ (by omega)]
    by_cases h10 : n / 10 = 0
    · rw [h10, toDecAux_zero]
      simp [valOfDigits]
      omega
    · rw [ih (n / 10) (by omega) (by omega)]
      omega

/-- Helper: value of a rendered number. -/
theorem toDecChars_val (n : Nat) : valOfDigits (toDecChars n) = n := by
  by_cases hn : n = 0
  · subst hn; rfl
  · rw [toDecChars, if_neg hn]
    exact toDecAux_val n n (by omega) le_rfl

/-- Helper: `toDecAux` only emits digit characters. -/
theorem toDecAux_digits (fuel : Nat) :
    ∀ (n : Nat) (acc : List Char), (∀ c ∈ acc, isDigitC c = true) →
      ∀ c ∈ toDecAux fuel n acc, isDigitC c = true := by
  induction fuel with
  | zero => intro n acc hacc; simpa [toDecAux] using hacc
  | succ f ih =>
    intro n acc hacc c hc
    by_cases hn : n = 0
    · rw [toDecAux, if_pos hn] at hc
      exact hacc c hc
    · rw [toDecAux, if_neg hn] at hc
      refine ih (n / 10) _ ?_ c hc
      intro x hx
      rcases List.mem_cons.mp hx with rfl | hx
      · exact isDigitC_digitChar _ (by omega)
      · exact hacc x hx

/-- Helper: rendered numbers consist of digit characters. -/
theorem toDecChars_digits (n : Nat) :
    ∀ c ∈ toDecChars n, isDigitC c = true := by
  by_cases hn : n = 0
  · subst hn; intro c hc; simp [toDecChars] at hc; subst hc; decide
  · rw [toDecChars, if_neg hn]
    exact toDecAux_digits n n [] (by simp)

/-- Helper: rendered numbers are non-empty. -/
theorem toDecChars_ne_nil (n : Nat) : toDecChars n ≠ [] := by
  by_cases hn : n = 0
  · subst hn; simp [toDecChars]
  · rw [toDecChars, if_neg hn]
    obtain ⟨f, rfl⟩ : ∃ f, n = f + 1 := ⟨n - 1, by omega⟩
    rw [toDecAux, if_neg hn, toDecAux_append]
    simp

/-- Helper: an element the optional last-element probe returns is in the
list. -/
theorem mem_of_getLast?_eq (l : List α) (a : α) (h : l.getLast? = some a) :
    a ∈ l := by
  obtain ⟨hne, heq⟩ :=
    List.mem_getLast?_eq_getLast (show a ∈ l.getLast? by rw [h]; rfl)
  subst heq
  exact List.getLast_mem hne

/-- Helper: the greedy digit scanner takes exactly a digit block followed
by a non-digit (or nothing). -/
theorem spanDigits_append (ds rest : List Char)
    (hds : ∀ c ∈ ds, isDigitC c = true)
    (hrest : ∀ c cs, rest = c :: cs → isDigitC c = false) :
    spanDigits (ds ++ rest) = (ds, rest) := by
  induction ds with
  | nil =>
    cases rest with
    | nil => rfl
    | cons c cs =>
      simp only [List.nil_append, spanDigits, List.takeWhile_cons,
        List.dropWhile_cons, hrest c cs rfl]
      simp
  | cons d ds ih =>
    have hd : isDigitC d = true := hds d (List.mem_cons_self d ds)
    have ih' := ih (fun c hc => hds c (List.mem_cons_of_mem d hc))
    simp only [spanDigits, List.cons_append, List.takeWhile_cons,
      List.dropWhile_cons, hd] at ih' ⊢
    simp only [if_true, Prod.mk.injEq] at ih' ⊢
    exact ⟨by rw [ih'.1], ih'.2⟩

/-- Helper: non-digit characters appearing after rendered parts. -/
theorem not_digit_of_unit :
    isDigitC 'h' = false ∧ isDigitC 'm' = false ∧ isDigitC 's' = false ∧
      isDigitC '.' = false := by
  decide

/-- Helper: token for an hours part — digits then `h`. -/
theorem parseOneToken_hours (h : Nat) (rest : List Char) :
    parseOneToken (toDecChars h ++ 'h' :: rest) = some (h * 3600000, rest) := by
  have hspan : spanDigits (toDecChars h ++ 'h' :: rest) =
      (toDecChars h, 'h' :: rest) :=
    spanDigits_append _ _ (toDecChars_digits h)
      (fun c cs hc => by injection hc with h1 _; subst h1; decide)
  simp [parseOneToken, hspan, toDecChars_ne_nil h, parseUnit, toDecChars_val]

/-- Helper: token for a minutes part — digits then `m`, not followed by
an `s` (the next part starts with a digit or nothing follows). -/
theorem parseOneToken_minutes (m : Nat) (rest : List Char)
    (hrest : rest = [] ∨ ∃ c cs, rest = c :: cs ∧ isDigitC c = true) :
    parseOneToken (toDecChars m ++ 'm' :: rest) = some (m * 60000, rest) := by
  have hspan : spanDigits (toDecChars m ++ 'm' :: rest) =
      (toDecChars m, 'm' :: rest) :=
    spanDigits_append _ _ (toDecChars_digits m)
      (fun c cs hc => by injection hc with h1 _; subst h1; decide)
  rcases hrest with rfl | ⟨c, cs, rfl, hc⟩
  · simp [parseOneToken, hspan, toDecChars_ne_nil m, parseUnit, toDecChars_val]
  · have hcs : c ≠ 's' := by
      intro h
      subst h
      exact absurd hc (by decide)
    simp [parseOneToken, hspan, toDecChars_ne_nil m, parseUnit, toDecChars_val,
      hcs]

/-- Helper: token for a whole-seconds part — digits then `s`. -/
theorem parseOneToken_seconds (sec : Nat) (rest : List Char) :
    parseOneToken (toDecChars sec ++ 's' :: rest) = some (sec * 1000, rest) := by
  have hspan : spanDigits (toDecChars sec ++ 's' :: rest) =
      (toDecChars sec, 's' :: rest) :=
    spanDigits_append _ _ (toDecChars_digits sec)
      (fun c cs hc => by injection hc with h1 _; subst h1; decide)
  simp [parseOneToken, hspan, toDecChars_ne_nil sec, parseUnit, toDecChars_val]

/-- Helper: token for a sub-second millisecond form — digits then `ms`
(the ordered alternation matches `ms` before `m`). -/
theorem parseOneToken_ms (v : Nat) :
    parseOneToken (toDecChars v ++ ['m', 's']) = some (v, []) := by
  have hspan : spanDigits (toDecChars v ++ ['m', 's']) =
      (toDecChars v, ['m', 's']) :=
    spanDigits_append _ _ (toDecChars_digits v)
      (fun c cs hc => by injection hc with h1 _; subst h1; decide)
  simp [parseOneToken, hspan, toDecChars_ne_nil v, parseUnit, toDecChars_val]

set_option maxRecDepth 4000 in
/-- Helper: the rendered fraction digits of a sub-second remainder are a
non-empty digit string whose truncated scaled value recovers the
remainder (checked by evaluation over all remainders below one
second). -/
theorem fracChars_spec : ∀ r < 1000, 0 < r →
    (fracChars r ≠ [] ∧ (∀ c ∈ fracChars r, isDigitC c = true) ∧
      valOfDigits (fracChars r) * 1000 / 10 ^ (fracChars r).length = r) := by
  decide

/-- Helper: token for a fractional-seconds part — digits, a dot, the
rendered fraction, then `s`. -/
theorem parseOneToken_seconds_frac (sec r : Nat) (hr : r < 1000)
    (hr0 : 0 < r) :
    parseOneToken (toDecChars sec ++ '.' :: (fracChars r ++ ['s'])) =
      some (sec * 1000 + r, []) := by
  obtain ⟨hfne, hfdig, hfval⟩ := fracChars_spec r hr hr0
  have hspan : spanDigits (toDecChars sec ++ '.' :: (fracChars r ++ ['s'])) =
      (toDecChars sec, '.' :: (fracChars r ++ ['s'])) :=
    spanDigits_append _ _ (toDecChars_digits sec)
      (fun c cs hc => by injection hc with h1 _; subst h1; decide)
  have hspan2 : spanDigits (fracChars r ++ ['s']) = (fracChars r, ['s']) :=
    spanDigits_append _ _ hfdig
      (fun c cs hc => by injection hc with h1 _; subst h1; decide)
  simp [parseOneToken, hspan, hspan2, toDecChars_ne_nil sec, hfne, parseUnit,
    toDecChars_val, hfval]

/-- Helper: one step of the token loop. -/
theorem parseTokens_step (fuel : Nat) (s : List Char) (acc v : Nat)
    (rest : List Char) (h : parseOneToken s = some (v, rest)) :
    parseTokens (fuel + 1) s acc = parseTokens fuel rest (acc + v) := by
  simp [parseTokens, h]

/-- Helper: the token loop at the end of the input returns the sum. -/
theorem parseTokens_nil (fuel acc : Nat) :
    parseTokens (fuel + 1) [] acc = some acc := by
  simp [parseTokens, parseOneToken, spanDigits]

/-- Helper: the token loop is monotone in fuel. -/
theorem parseTokens_mono :
    ∀ (fuel1 fuel2 : Nat) (s : List Char) (acc v : Nat), fuel1 ≤ fuel2 →
      parseTokens fuel1 s acc = some v → parseTokens fuel2 s acc = some v := by
  intro fuel1
  induction fuel1 with
  | zero =>
    intro fuel2 s acc v _ h
    simp [parseTokens] at h
  | succ f ih =>
    intro fuel2 s acc v hle h
    obtain ⟨f2, rfl⟩ : ∃ f2, fuel2 = f2 + 1 := ⟨fuel2 - 1, by omega⟩
    rw [parseTokens] at h ⊢
    cases htok : parseOneToken s with
    | none =>
      rw [htok] at h
      exact h
    | some vr =>
      rw [htok] at h
      obtain ⟨v', rest⟩ := vr
      dsimp only at h ⊢
      exact ih f2 _ _ _ (by omega) h

/-- Helper: digit characters are not white space. -/
theorem not_ws_of_digit (c : Char) (h : isDigitC c = true) :
    isJsWhitespace c = false := by
  simp only [isDigitC, Bool.and_eq_true, decide_eq_true_eq] at h
  simp only [isJsWhitespace, Bool.or_eq_false_iff, decide_eq_false_iff_not,
    Bool.and_eq_false_iff, decide_eq_true_eq]
  omega

/-- Helper: a string of non-white-space characters has no white-space
edge. -/
theorem hasEdgeWhitespace_eq_false (s : List Char)
    (h : ∀ c ∈ s, isJsWhitespace c = false) :
    hasEdgeWhitespace s = false := by
  cases s with
  | nil => rfl
  | cons c cs =>
    rw [hasEdgeWhitespace]
    cases hgl : (c :: cs).getLast? with
    | none => simp [h c (List.mem_cons_self c cs)]
    | some d =>
      have hd := h d (mem_of_getLast?_eq _ _ hgl)
      simp [h c (List.mem_cons_self c cs), hd]

/-- Helper: digit characters are not a sign. -/
theorem not_sign_of_digit (c : Char) (h : isDigitC c = true) :
    c ≠ '-' ∧ c ≠ '+' := by
  constructor <;> intro he <;> subst he <;> exact absurd h (by decide)

/-- Helper: evaluation of `parseDuration` on a well-formed non-zero
rendered string — the guards pass and the result is the guarded outcome
of the token loop. -/
theorem parseDuration_eval (s : List Char) (c : Char) (cs : List Char)
    (hs : s = c :: cs) (hc : isDigitC c = true)
    (hws : ∀ x ∈ s, isJsWhitespace x = false)
    (hz : s ≠ ['0']) :
    parseDuration s =
      match parseTokens (s.length + 1) s 0 with
      | none => none
      | some total =>
        if total ≤ maxSafeInteger then some total else none := by
  obtain ⟨hm, hp⟩ := not_sign_of_digit c hc
  rw [parseDuration, if_neg (by simp [hs]),
    if_neg (by rw [hasEdgeWhitespace_eq_false s hws]; simp),
    if_neg (by simp [hs, hm, hp]), if_neg hz]

/-- Seconds part of the compound rendering: whole seconds, with the
fraction digits when the sub-second remainder is non-zero (the
`seconds`/`remMs` branch of `Duration.toString`). -/
def sPartChars (sec r : Nat) : List Char :=
  if r = 0 then toDecChars sec ++ ['s']
  else toDecChars sec ++ '.' :: fracChars r ++ ['s']

/-- Helper: rendered numbers start with a digit. -/
theorem toDecChars_cons (n : Nat) :
    ∃ c cs, toDecChars n = c :: cs ∧ isDigitC c = true := by
  cases hh : toDecChars n with
  | nil => exact absurd hh (toDecChars_ne_nil n)
  | cons a b =>
    exact ⟨a, b, rfl, toDecChars_digits n a (hh ▸ List.mem_cons_self a b)⟩

/-- Helper: the seconds part starts with a digit. -/
theorem sPartChars_head_digit (sec r : Nat) :
    ∃ c cs, sPartChars sec r = c :: cs ∧ isDigitC c = true := by
  obtain ⟨c, cs, hc, hcd⟩ := toDecChars_cons sec
  by_cases hr0 : r = 0
  · exact ⟨c, cs ++ ['s'], by simp [sPartChars, hr0, hc], hcd⟩
  · exact ⟨c, cs ++ '.' :: fracChars r ++ ['s'],
      by simp [sPartChars, hr0, hc], hcd⟩

/-- Helper: the seconds part contains no white space. -/
theorem not_ws_sPartChars (sec r : Nat) (hr : r < 1000) :
    ∀ x ∈ sPartChars sec r, isJsWhitespace x = false := by
  intro x hx
  by_cases hr0 : r = 0
  · rw [sPartChars, if_pos hr0] at hx
    rcases List.mem_append.mp hx with hx | hx
    · exact not_ws_of_digit x (toDecChars_digits sec x hx)
    · simp at hx
      subst hx
      decide
  · rw [sPartChars, if_neg hr0] at hx
    rcases List.mem_append.mp hx with hx | hx
    · rcases List.mem_append.mp hx with hx | hx
      · exact not_ws_of_digit x (toDecChars_digits sec x hx)
      · rcases List.mem_cons.mp hx with rfl | hx
        · decide
        · exact not_ws_of_digit x
            ((fracChars_spec r hr (by omega)).2.1 x hx)
    · simp at hx
      subst hx
      decide

/-- Helper: token-loop computation over the seconds part. -/
theorem parseTokens_sPart (fuel sec r acc : Nat) (hr : r < 1000) :
    parseTokens (fuel + 2) (sPartChars sec r) acc =
      some (acc + (sec * 1000 + r)) := by
  by_cases hr0 : r = 0
  · rw [sPartChars, if_pos hr0,
      parseTokens_step (fuel + 1) _ acc (sec * 1000) []
        (parseOneToken_seconds sec []),
      parseTokens_nil fuel]
    subst hr0
    norm_num
  · rw [sPartChars, if_neg hr0]
    have hfr := parseOneToken_seconds_frac sec r hr (by omega)
    rw [show toDecChars sec ++ '.' :: fracChars r ++ ['s'] =
        toDecChars sec ++ '.' :: (fracChars r ++ ['s']) by simp,
      parseTokens_step (fuel + 1) _ acc (sec * 1000 + r) [] hfr,
      parseTokens_nil fuel]

/-- Helper: `parseDuration` on a rendered compound string that starts
with a digit block, given the token-loop outcome and the safe-integer
bound. -/
theorem parseDuration_rendered (n : Nat) (u : Char) (rest : List Char)
    (hu : isJsWhitespace u = false)
    (hrest_ws : ∀ x ∈ rest, isJsWhitespace x = false) (total : Nat)
    (htot : parseTokens ((toDecChars n ++ u :: rest).length + 1)
      (toDecChars n ++ u :: rest) 0 = some total)
    (hmax : total ≤ maxSafeInteger) :
    parseDuration (toDecChars n ++ u :: rest) = some total := by
  obtain ⟨c, cs, hc, hcd⟩ := toDecChars_cons n
  rw [parseDuration_eval (toDecChars n ++ u :: rest) c (cs ++ u :: rest)
      (by rw [hc]; simp) hcd ?_ ?_]
  · rw [htot]
    simp [hmax]
  · intro x hx
    rcases List.mem_append.mp hx with hx | hx
    · exact not_ws_of_digit x (toDecChars_digits n x hx)
    · rcases List.mem_cons.mp hx with rfl | hx
      · exact hu
      · exact hrest_ws x hx
  · intro he
    have hl := congrArg List.length he
    have hp := List.length_pos.mpr (toDecChars_ne_nil n)
    simp at hl
    omega

/-- Helper: token-loop computation over a minutes part followed by a
seconds part. -/
theorem parseTokens_mPart_sPart (fuel m sec r acc : Nat) (hr : r < 1000) :
    parseTokens (fuel + 3) (toDecChars m ++ 'm' :: sPartChars sec r) acc =
      some (acc + (m * 60000 + (sec * 1000 + r))) := by
  obtain ⟨c, cs, hc, hcd⟩ := sPartChars_head_digit sec r
  show parseTokens ((fuel + 2) + 1) _ acc = _
  rw [parseTokens_step (fuel + 2) _ acc _ _
    (parseOneToken_minutes m _ (Or.inr ⟨c, cs, hc, hcd⟩)),
    parseTokens_sPart fuel sec r _ hr]
  congr 1
  omega

/-- Helper: token-loop computation over a minutes part alone. -/
theorem parseTokens_mPart_only (fuel m acc : Nat) :
    parseTokens (fuel + 2) (toDecChars m ++ 'm' :: []) acc =
      some (acc + m * 60000) := by
  show parseTokens ((fuel + 1) + 1) _ acc = _
  rw [parseTokens_step (fuel + 1) _ acc _ _
    (parseOneToken_minutes m [] (Or.inl rfl)), parseTokens_nil fuel]

/-- Helper: token-loop computation over an hours part alone. -/
theorem parseTokens_hPart_only (fuel h acc : Nat) :
    parseTokens (fuel + 2) (toDecChars h ++ 'h' :: []) acc =
      some (acc + h * 3600000) := by
  show parseTokens ((fuel + 1) + 1) _ acc = _
  rw [parseTokens_step (fuel + 1) _ acc _ _ (parseOneToken_hours h []),
    parseTokens_nil fuel]

/-- Helper: a minutes-then-seconds tail contains no white space. -/
theorem not_ws_mPart_sPart (m sec r : Nat) (hr : r < 1000) :
    ∀ x ∈ toDecChars m ++ 'm' :: sPartChars sec r,
      isJsWhitespace x = false := by
  intro x hx
  rcases List.mem_append.mp hx with hx | hx
  · exact not_ws_of_digit x (toDecChars_digits m x hx)
  · rcases List.mem_cons.mp hx with rfl | hx
    · decide
    · exact not_ws_sPartChars sec r hr x hx

/-- Helper: a minutes-only tail contains no white space. -/
theorem not_ws_mPart_only (m : Nat) :
    ∀ x ∈ toDecChars m ++ 'm' :: ([] : List Char),
      isJsWhitespace x = false := by
  intro x hx
  rcases List.mem_append.mp hx with hx | hx
  · exact not_ws_of_digit x (toDecChars_digits m x hx)
  · rcases List.mem_cons.mp hx with rfl | hx
    · decide
    · simp at hx

/-- Helper: positivity of the length of a rendered number. -/
theorem toDecChars_length_pos (n : Nat) : 0 < (toDecChars n).length :=
  List.length_pos.mpr (toDecChars_ne_nil n)

/-- Helper: positivity of the length of a seconds part. -/
theorem sPartChars_length_pos (sec r : Nat) : 0 < (sPartChars sec r).length := by
  obtain ⟨c, cs, hc, _⟩ := sPartChars_head_digit sec r
  rw [hc]
  simp

/-- C7 counterexample: `Duration` accepts any non-negative integer
number of milliseconds, but at `2^53` (one past
`Number.MAX_SAFE_INTEGER`) the round trip fails: `parseDuration`
rejects the rendered string because the re-parsed total is not a safe
integer. (At this input every `number` operation in `toString` is exact,
so the `Nat` model matches the JavaScript arithmetic.) -/
theorem c7_roundtrip_counterexample :
    parseDuration (durationToString 9007199254740992) = none ∧
    (9007199254740992 : Nat) = 2 ^ 53 ∧
    maxSafeInteger = 2 ^ 53 - 1 := by
  refine ⟨rfl, by norm_num, by norm_num [maxSafeInteger]⟩

/-- C7 (amended): for every duration of at most
`Number.MAX_SAFE_INTEGER` milliseconds, parsing the rendered string
yields the same number of milliseconds. -/
theorem c7_duration_roundtrip (ms : Nat) (hms : ms ≤ maxSafeInteger) :
    parseDuration (durationToString ms) = some ms := by
  by_cases h0 : ms = 0
  · subst h0
    rfl
  by_cases hlt : ms < 1000
  · -- sub-second form: digits then "ms"
    have hrw : durationToString ms = toDecChars ms ++ 'm' :: ['s'] := by
      rw [durationToString, if_neg h0, if_pos hlt]
    have htok2 : parseTokens 2 (toDecChars ms ++ 'm' :: ['s']) 0 = some ms := by
      show parseTokens (1 + 1) _ 0 = some ms
      rw [parseTokens_step 1 _ 0 ms [] (parseOneToken_ms ms),
        parseTokens_nil 0]
      norm_num
    rw [hrw]
    refine parseDuration_rendered ms 'm' ['s'] (by decide) ?_ ms ?_ hms
    · intro x hx
      simp at hx
      subst hx
      decide
    · refine parseTokens_mono 2 _ _ 0 ms ?_ htok2
      simp
  · -- compound form
    have e1 : ms - ms / 3600000 * 3600000 = ms % 3600000 := by omega
    have e2 : ms % 3600000 - ms % 3600000 / 60000 * 60000 = ms % 60000 := by
      omega
    have e3 : ms % 60000 - ms % 60000 / 1000 * 1000 = ms % 1000 := by omega
    have hr : ms % 1000 < 1000 := by omega
    have hlh := toDecChars_length_pos (ms / 3600000)
    have hlm := toDecChars_length_pos (ms % 3600000 / 60000)
    have hlsp := sPartChars_length_pos (ms % 60000 / 1000) (ms % 1000)
    by_cases hh : 0 < ms / 3600000
    · by_cases hm : 0 < ms % 3600000 / 60000
      · by_cases hsr : 0 < ms % 60000 / 1000 ∨ 0 < ms % 1000
        · -- hours, minutes, seconds
          have hrw : durationToString ms =
              toDecChars (ms / 3600000) ++ 'h' ::
                (toDecChars (ms % 3600000 / 60000) ++ 'm' ::
                  sPartChars (ms % 60000 / 1000) (ms % 1000)) := by
            rcases hsr with hs | hrp
            · simp [durationToString, h0, hlt, e1, e2, e3, hh, hm, hs,
                sPartChars]
            · simp [durationToString, h0, hlt, e1, e2, e3, hh, hm, hrp,
                Nat.pos_iff_ne_zero.mp hrp, sPartChars]
          have hch : parseTokens 4
              (toDecChars (ms / 3600000) ++ 'h' ::
                (toDecChars (ms % 3600000 / 60000) ++ 'm' ::
                  sPartChars (ms % 60000 / 1000) (ms % 1000))) 0 =
              some ms := by
            show parseTokens (3 + 1) _ 0 = some ms
            rw [parseTokens_step 3 _ 0 _ _
              (parseOneToken_hours (ms / 3600000) _)]
            rw [show (3 : Nat) = 0 + 3 from rfl,
              parseTokens_mPart_sPart 0 _ _ _ _ hr]
            congr 1
            omega
          rw [hrw]
          refine parseDuration_rendered (ms / 3600000) 'h' _ (by decide)
            (not_ws_mPart_sPart _ _ _ hr) ms ?_ hms
          refine parseTokens_mono 4 _ _ 0 ms ?_ hch
          simp
          omega
        · -- hours and minutes only
          have hs0 : ¬ 0 < ms % 60000 / 1000 := fun h => hsr (Or.inl h)
          have hr0 : ¬ 0 < ms % 1000 := fun h => hsr (Or.inr h)
          have hrw : durationToString ms =
              toDecChars (ms / 3600000) ++ 'h' ::
                (toDecChars (ms % 3600000 / 60000) ++ 'm' :: []) := by
            simp [durationToString, h0, hlt, e1, e2, e3, hh, hm, hs0, hr0,
              toDecChars_ne_nil]
          have hch : parseTokens 3
              (toDecChars (ms / 3600000) ++ 'h' ::
                (toDecChars (ms % 3600000 / 60000) ++ 'm' :: [])) 0 =
              some ms := by
            show parseTokens (2 + 1) _ 0 = some ms
            rw [parseTokens_step 2 _ 0 _ _
              (parseOneToken_hours (ms / 3600000) _)]
            rw [show (2 : Nat) = 0 + 2 from rfl, parseTokens_mPart_only 0]
            congr 1
            omega
          rw [hrw]
          refine parseDuration_rendered (ms / 3600000) 'h' _ (by decide)
            (not_ws_mPart_only _) ms ?_ hms
          refine parseTokens_mono 3 _ _ 0 ms ?_ hch
          simp
          omega
      · by_cases hsr : 0 < ms % 60000 / 1000 ∨ 0 < ms % 1000
        · -- hours and seconds
          have hrw : durationToString ms =
              toDecChars (ms / 3600000) ++ 'h' ::
                sPartChars (ms % 60000 / 1000) (ms % 1000) := by
            rcases hsr with hs | hrp
            · simp [durationToString, h0, hlt, e1, e2, e3, hh, hm, hs,
                sPartChars]
            · simp [durationToString, h0, hlt, e1, e2, e3, hh, hm, hrp,
                Nat.pos_iff_ne_zero.mp hrp, sPartChars]
          have hch : parseTokens 3
              (toDecChars (ms / 3600000) ++ 'h' ::
                sPartChars (ms % 60000 / 1000) (ms % 1000)) 0 = some ms := by
            show parseTokens (2 + 1) _ 0 = some ms
            rw [parseTokens_step 2 _ 0 _ _
              (parseOneToken_hours (ms / 3600000) _)]
            rw [show (2 : Nat) = 0 + 2 from rfl,
              parseTokens_sPart 0 _ _ _ hr]
            congr 1
            omega
          rw [hrw]
          refine parseDuration_rendered (ms / 3600000) 'h' _ (by decide)
            (not_ws_sPartChars _ _ hr) ms ?_ hms
          refine parseTokens_mono 3 _ _ 0 ms ?_ hch
          simp
          omega
        · -- hours only
          have hs0 : ¬ 0 < ms % 60000 / 1000 := fun h => hsr (Or.inl h)
          have hr0 : ¬ 0 < ms % 1000 := fun h => hsr (Or.inr h)
          have hrw : durationToString ms =
              toDecChars (ms / 3600000) ++ 'h' :: [] := by
            simp [durationToString, h0, hlt, e1, e2, e3, hh, hm, hs0, hr0,
              toDecChars_ne_nil]
          have hch : parseTokens 2
              (toDecChars (ms / 3600000) ++ 'h' :: []) 0 = some ms := by
            rw [show (2 : Nat) = 0 + 2 from rfl, parseTokens_hPart_only 0]
            congr 1
            omega
          rw [hrw]
          refine parseDuration_rendered (ms / 3600000) 'h' [] (by decide)
            (by simp) ms ?_ hms
          refine parseTokens_mono 2 _ _ 0 ms ?_ hch
          simp
    · by_cases hm : 0 < ms % 3600000 / 60000
      · by_cases hsr : 0 < ms % 60000 / 1000 ∨ 0 < ms % 1000
        · -- minutes and seconds
          have hrw : durationToString ms =
              toDecChars (ms % 3600000 / 60000) ++ 'm' ::
                sPartChars (ms % 60000 / 1000) (ms % 1000) := by
            rcases hsr with hs | hrp
            · simp [durationToString, h0, hlt, e1, e2, e3, hh, hm, hs,
                sPartChars]
            · simp [durationToString, h0, hlt, e1, e2, e3, hh, hm, hrp,
                Nat.pos_iff_ne_zero.mp hrp, sPartChars]
          have hch : parseTokens 3
              (toDecChars (ms % 3600000 / 60000) ++ 'm' ::
                sPartChars (ms % 60000 / 1000) (ms % 1000)) 0 = some ms := by
            rw [show (3 : Nat) = 0 + 3 from rfl,
              parseTokens_mPart_sPart 0 _ _ _ _ hr]
            congr 1
            omega
          rw [hrw]
          refine parseDuration_rendered (ms % 3600000 / 60000) 'm' _
            (by decide) (not_ws_sPartChars _ _ hr) ms ?_ hms
          refine parseTokens_mono 3 _ _ 0 ms ?_ hch
          simp
          omega
        · -- minutes only
          have hs0 : ¬ 0 < ms % 60000 / 1000 := fun h => hsr (Or.inl h)
          have hr0 : ¬ 0 < ms % 1000 := fun h => hsr (Or.inr h)
          have hrw : durationToString ms =
              toDecChars (ms % 3600000 / 60000) ++ 'm' :: [] := by
            simp [durationToString, h0, hlt, e1, e2, e3, hh, hm, hs0, hr0,
              toDecChars_ne_nil]
          have hch : parseTokens 2
              (toDecChars (ms % 3600000 / 60000) ++ 'm' :: []) 0 =
              some ms := by
            rw [show (2 : Nat) = 0 + 2 from rfl, parseTokens_mPart_only 0]
            congr 1
            omega
          rw [hrw]
          refine parseDuration_rendered (ms % 3600000 / 60000) 'm' []
            (by decide) (by simp) ms ?_ hms
          refine parseTokens_mono 2 _ _ 0 ms ?_ hch
          simp
      · -- seconds only (the hours and minutes parts are empty)
        have hrw : durationToString ms =
            sPartChars (ms % 60000 / 1000) (ms % 1000) := by
          simp [durationToString, h0, hlt, e1, e2, e3, hh, hm,
            toDecChars_ne_nil, sPartChars]
        have hch : parseTokens 2
            (sPartChars (ms % 60000 / 1000) (ms % 1000)) 0 = some ms := by
          rw [show (2 : Nat) = 0 + 2 from rfl, parseTokens_sPart 0 _ _ _ hr]
          congr 1
          omega
        obtain ⟨c, cs, hc, hcd⟩ :=
          sPartChars_head_digit (ms % 60000 / 1000) (ms % 1000)
        rw [hrw]
        have hfin : parseTokens
            ((sPartChars (ms % 60000 / 1000) (ms % 1000)).length + 1)
            (sPartChars (ms % 60000 / 1000) (ms % 1000)) 0 = some ms := by
          refine parseTokens_mono 2 _ _ 0 ms (by omega) hch
        rw [parseDuration_eval _ c cs hc hcd
          (not_ws_sPartChars _ _ hr) ?_]
        · rw [hfin]
          simp [hms]
        · intro he
          rw [he] at hch
          rw [show parseTokens 2 ['0'] 0 = (none : Option Nat) from rfl] at hch
          cases hch

/-- C7 witness: the round trip at 90061 ms, whose rendering is the
compound form "1m30.061s". -/
theorem c7_duration_roundtrip_witness :
    (90061 : Nat) ≤ maxSafeInteger ∧
    parseDuration (durationToString 90061) = some 90061 :=
  ⟨by norm_num [maxSafeInteger],
   c7_duration_roundtrip 90061 (by norm_num [maxSafeInteger])⟩

end Kest
